import Mathlib

set_option maxHeartbeats 1000000

/-!
Verification of the ordered-collection, authorization and chat-action
subsystems of a Kanban task-board server (Rust/axum/sqlx).  The Rust
repositories store rows in SQLite; here a table is a `List` of rows and
each SQL statement is translated into the corresponding pure list
transformation.  `Uuid` values are modelled as `Nat`, SQL `INTEGER`
positions (`i32`) as `Int` (all positions involved stay far from the
i32 bounds, and the SQL arithmetic `position ± 1` matches `Int`
arithmetic), and timestamps are not modelled.
-/

namespace Kanban

/-! ### Data model

Rows of the `cards` and `columns` tables, as read by
`src/repo/card.rs` and `src/repo/column.rs` (the repository layer the
position logic lives in; there `column_id` of a card is a plain `Uuid`).
`created_at`/`updated_at` are not modelled. -/
structure Card where
  id : Nat
  columnId : Nat
  title : String
  body : Option String
  position : Int
  visibility : String
  startDate : Option String
  endDate : Option String
  dueDate : Option String
  ownerId : Option Nat
  createdBy : Nat
  deriving Repr, DecidableEq

structure Column where
  id : Nat
  boardId : Nat
  name : String
  position : Int
  deriving Repr, DecidableEq

/-! ### Card repository (`src/repo/card.rs`) -/
/-- `SELECT MAX(position) …` over a list of already-filtered positions. -/
def maxInt? : List Int → Option Int
  | [] => none
  | p :: ps =>
    match maxInt? ps with
    | none => some p
    | some m => some (max p m)

/-- The positions of the cards of one column, in table order. -/
def colPositions (cards : List Card) (col : Nat) : List Int :=
  (cards.filter (fun c => c.columnId == col)).map (·.position)

/-- `SELECT MAX(position) FROM cards WHERE column_id = $1`. -/
def maxPosCards (cards : List Card) (col : Nat) : Option Int :=
  maxInt? (colPositions cards col)

/-- `CardRepository::create`: the `INSERT` appends a row; an explicit
`position` is stored as given (no shifting), otherwise
`MAX(position)` is read and `max_pos.unwrap_or(-1) + 1` is used. -/
def createCard (cards : List Card) (newId : Nat) (columnId : Nat) (title : String)
    (body : Option String) (position : Option Int) (visibility : String)
    (startDate endDate dueDate : Option String) (createdBy : Nat) :
    Card × List Card :=
  let pos :=
    match position with
    | some p => p
    | none => (maxPosCards cards columnId).getD (-1) + 1
  let card : Card :=
    { id := newId, columnId := columnId, title := title, body := body,
      position := pos, visibility := visibility, startDate := startDate,
      endDate := endDate, dueDate := dueDate, ownerId := none,
      createdBy := createdBy }
  (card, cards ++ [card])

/-- `CardRepository::find_by_id` (`fetch_optional`, first matching row). -/
def findCardById (cards : List Card) (id : Nat) : Option Card :=
  cards.find? (fun c => c.id == id)

/-- `CardRepository::delete`: `DELETE FROM cards WHERE id = $1`; an error
(`NotFound`) when no row was affected.  No position is shifted. -/
def deleteCard (cards : List Card) (id : Nat) : Option (List Card) :=
  let remaining := cards.filter (fun c => !(c.id == id))
  if remaining.length == cards.length then none else some remaining

/-- The two same-column `UPDATE` statements of `CardRepository::move_card`.
`movedOld` is the moved card's current position. -/
def shiftSameColumn (colId : Nat) (movedOld newPos : Int) (c : Card) : Card :=
  if newPos > movedOld then
    if c.columnId == colId && movedOld < c.position && c.position ≤ newPos then
      { c with position := c.position - 1 }
    else c
  else if newPos < movedOld then
    if c.columnId == colId && newPos ≤ c.position && c.position < movedOld then
      { c with position := c.position + 1 }
    else c
  else c

/-- The two cross-column `UPDATE` statements of `CardRepository::move_card`:
close the gap in the old column, open a slot in the new column. -/
def shiftCrossColumn (oldCol : Nat) (movedOld : Int) (newCol : Nat) (newPos : Int)
    (c : Card) : Card :=
  let c1 :=
    if c.columnId == oldCol && c.position > movedOld then
      { c with position := c.position - 1 }
    else c
  if c1.columnId == newCol && c1.position ≥ newPos then
    { c1 with position := c1.position + 1 }
  else c1

/-- `CardRepository::move_card`: read the card, shift neighbours, then
`UPDATE cards SET column_id = $2, position = $3 WHERE id = $1`.
`none` is the `NotFound` error of `get_by_id`.  Note that `new_position`
is never validated against the container size. -/
def moveCard (cards : List Card) (id : Nat) (newColumnId : Nat) (newPosition : Int) :
    Option (Card × List Card) :=
  match findCardById cards id with
  | none => none
  | some card =>
    let shifted :=
      if card.columnId == newColumnId then
        cards.map (shiftSameColumn card.columnId card.position newPosition)
      else
        cards.map (shiftCrossColumn card.columnId card.position newColumnId newPosition)
    let final := shifted.map (fun c =>
      if c.id == id then { c with columnId := newColumnId, position := newPosition } else c)
    some ({ card with columnId := newColumnId, position := newPosition }, final)

/-! ### Column repository (`src/repo/column.rs`) -/
/-- Positions of one board's columns, in table order. -/
def boardColPositions (cols : List Column) (boardId : Nat) : List Int :=
  (cols.filter (fun c => c.boardId == boardId)).map (·.position)

/-- `SELECT MAX(position) FROM columns WHERE board_id = $1`. -/
def maxPosColumns (cols : List Column) (boardId : Nat) : Option Int :=
  maxInt? (boardColPositions cols boardId)

/-- `ColumnRepository::create`: append a row, explicit position stored as
given, otherwise `max_pos.unwrap_or(-1) + 1`. -/
def createColumn (cols : List Column) (newId : Nat) (boardId : Nat) (name : String)
    (position : Option Int) : Column × List Column :=
  let pos :=
    match position with
    | some p => p
    | none => (maxPosColumns cols boardId).getD (-1) + 1
  let col : Column := { id := newId, boardId := boardId, name := name, position := pos }
  (col, cols ++ [col])

/-- `ColumnRepository::delete`: `DELETE FROM columns WHERE id = $1`,
error when no row affected; no shifting. -/
def deleteColumnRow (cols : List Column) (id : Nat) : Option (List Column) :=
  let remaining := cols.filter (fun c => !(c.id == id))
  if remaining.length == cols.length then none else some remaining

/-- The shift `UPDATE`s of `ColumnRepository::move_column` (always within
the column's own board). -/
def shiftColumns (boardId : Nat) (movedOld newPos : Int) (c : Column) : Column :=
  if newPos > movedOld then
    if c.boardId == boardId && movedOld < c.position && c.position ≤ newPos then
      { c with position := c.position - 1 }
    else c
  else if newPos < movedOld then
    if c.boardId == boardId && newPos ≤ c.position && c.position < movedOld then
      { c with position := c.position + 1 }
    else c
  else c

/-- `ColumnRepository::move_column`; `new_position` is never validated. -/
def moveColumn (cols : List Column) (id : Nat) (newPosition : Int) :
    Option (Column × List Column) :=
  match cols.find? (fun c => c.id == id) with
  | none => none
  | some column =>
    let shifted := cols.map (shiftColumns column.boardId column.position newPosition)
    let final := shifted.map (fun c =>
      if c.id == id then { c with position := newPosition } else c)
    some ({ column with position := newPosition }, final)

/-! ### Density -/
/-- Number of cards of column `col` sitting at position `p`. -/
def cntPos (cards : List Card) (col : Nat) (p : Int) : Nat :=
  cards.countP (fun c => c.columnId == col && c.position == p)

/-- Number of cards in column `col`. -/
def colSize (cards : List Card) (col : Nat) : Nat :=
  cards.countP (fun c => c.columnId == col)

/-- A column's positions are exactly `{0, …, n-1}`, each once. -/
def dense (cards : List Card) (col : Nat) : Prop :=
  ∀ p : Int, cntPos cards col p = if 0 ≤ p ∧ p < (colSize cards col : Int) then 1 else 0

/-- Density of every container at once. -/
def denseAll (cards : List Card) : Prop := ∀ col : Nat, dense cards col

/-! ### Concrete fixtures used by counterexamples and witnesses -/
/-- A card fixture: two fields vary, the rest are fixed defaults. -/
def mkCard (id columnId : Nat) (pos : Int) : Card :=
  { id := id, columnId := columnId, title := "t", body := none, position := pos,
    visibility := "restricted", startDate := none, endDate := none,
    dueDate := none, ownerId := none, createdBy := 0 }

/-- Column 1 holding two dense cards (positions 0 and 1). -/
def twoCards : List Card := [mkCard 1 1 0, mkCard 2 1 1]

/-- Column 1 with three dense cards, column 2 with one card. -/
def fourCards : List Card := [mkCard 1 1 0, mkCard 2 1 1, mkCard 3 1 2, mkCard 4 2 0]

/-- Position rewrite applied by a same-column move to the non-moved rows. -/
def gvalSame (x : Card) (newPos : Int) (c : Card) : Int :=
  if c.columnId = x.columnId ∧ x.position < c.position ∧ c.position ≤ newPos ∧
      x.position < newPos then c.position - 1
  else if c.columnId = x.columnId ∧ newPos ≤ c.position ∧ c.position < x.position ∧
      newPos < x.position then c.position + 1
  else c.position

/-- Position rewrite applied by a cross-column move to the non-moved rows. -/
def gvalCross (x : Card) (B : Nat) (q : Int) (c : Card) : Int :=
  let p1 := if c.columnId = x.columnId ∧ c.position > x.position then c.position - 1
            else c.position
  if c.columnId = B ∧ p1 ≥ q then p1 + 1 else p1

/-- Count, at one (column, position) cell, of the rows other than card `xid`. -/
def cntOthers (cards : List Card) (xid : Nat) (C : Nat) (j : Int) : Nat :=
  cards.countP (fun c => !(c.id == xid) && (c.columnId == C && c.position == j))

/-- Number of rows of column `C` other than card `xid`. -/
def sizeOthers (cards : List Card) (xid : Nat) (C : Nat) : Nat :=
  cards.countP (fun c => !(c.id == xid) && c.columnId == C)

/-- Two columns of board 1 at dense positions 0 and 1. -/
def twoColumns : List Column :=
  [{ id := 1, boardId := 1, name := "Todo", position := 0 },
   { id := 2, boardId := 1, name := "Done", position := 1 }]

/-- ASCII model of Rust `str::to_lowercase` (all strings involved are ASCII). -/
def lc (s : String) : String :=
  (s.data.map Char.toLower).asString

/-- `BoardRole` (`src/models/board.rs`). -/
inductive BoardRole where
  | owner
  | editor
  | reader
  deriving Repr, DecidableEq

/-- `BoardRole::can_edit`. -/
def BoardRole.canEdit : BoardRole → Bool
  | .owner => true
  | .editor => true
  | .reader => false

/-- `BoardRole::can_delete`. -/
def BoardRole.canDelete : BoardRole → Bool
  | .owner => true
  | _ => false

/-- `BoardRole::can_manage_permissions`. -/
def BoardRole.canManagePermissions : BoardRole → Bool
  | .owner => true
  | _ => false

/-- `BoardRole::fmt` (`Display`). -/
def BoardRole.toStr : BoardRole → String
  | .owner => "owner"
  | .editor => "editor"
  | .reader => "reader"

/-- `BoardRole::from_str`: lowercase then exact match, unknown is an error. -/
def roleFromString (s : String) : Option BoardRole :=
  if lc s = "owner" then some .owner
  else if lc s = "editor" then some .editor
  else if lc s = "reader" then some .reader
  else none

/-- `CardVisibility` (`src/models/card.rs`). -/
inductive CardVisibility where
  | private_
  | restricted
  | public
  deriving Repr, DecidableEq

/-- `CardVisibility::from_str`: lowercase then exact match. -/
def visFromString (s : String) : Option CardVisibility :=
  if lc s = "private" then some .private_
  else if lc s = "restricted" then some .restricted
  else if lc s = "public" then some .public
  else none

/-- One row of `board_permissions` for a fixed board (role stored as text). -/
structure PermRow where
  userId : Nat
  role : String
  deriving Repr, DecidableEq

/-- `BoardRepository::get_user_role`: fetch the row, then
`role.parse().ok()` (unparsable text is treated as no role). -/
def getUserRole (perms : List PermRow) (userId : Nat) : Option BoardRole :=
  (perms.find? (fun p => p.userId == userId)).bind (fun p => roleFromString p.role)

/-- `BoardRepository::add_permission`:
`INSERT … ON CONFLICT(board_id, user_id) DO UPDATE SET role = $4`. -/
def addPermissionRepo (perms : List PermRow) (userId : Nat) (role : BoardRole) :
    List PermRow :=
  if perms.any (fun p => p.userId == userId) then
    perms.map (fun p => if p.userId == userId then { p with role := role.toStr } else p)
  else
    perms ++ [{ userId := userId, role := role.toStr }]

/-- `BoardRepository::remove_permission`:
`DELETE … WHERE user_id = $2 AND role != 'owner'`, error if nothing deleted. -/
def removePermissionRepo (perms : List PermRow) (userId : Nat) :
    Option (List PermRow) :=
  let remaining := perms.filter (fun p => !(p.userId == userId && !(p.role == "owner")))
  if remaining.length == perms.length then none else some remaining

/-- `handlers::boards::add_permission`: actor must hold a role passing
`can_manage_permissions`; `role == Owner` is rejected ("Cannot add another
owner"); then the repository upsert runs. -/
def handlerAddPermission (perms : List PermRow) (actorId targetUser : Nat)
    (role : BoardRole) : Option (List PermRow) :=
  match getUserRole perms actorId with
  | none => none
  | some r =>
    if !r.canManagePermissions then none
    else if role = BoardRole.owner then none
    else some (addPermissionRepo perms targetUser role)

/-- `handlers::boards::remove_permission`: same gate, then the repository
delete. -/
def handlerRemovePermission (perms : List PermRow) (actorId targetUser : Nat) :
    Option (List PermRow) :=
  match getUserRole perms actorId with
  | none => none
  | some r =>
    if !r.canManagePermissions then none
    else removePermissionRepo perms targetUser

/-- `handlers::cards::get_card` visibility gate: the stored string is parsed
with `unwrap_or(Private)`; Private requires an edit-capable role, Restricted
any role, Public always passes.  The viewer's identity is never consulted. -/
def cardsGetCardAllowed (card : Card) (role : Option BoardRole) : Bool :=
  match (visFromString card.visibility).getD CardVisibility.private_ with
  | .private_ => (role.map BoardRole.canEdit).getD false
  | .restricted => role.isSome
  | .public => true

/-- `handlers::inbox::get_card` access gate: owner or creator always passes;
otherwise some attached board must yield a recognized role.  `boardRoles`
is the list of `get_user_role` results over `list_boards_for_card`.
The card's visibility is never consulted. -/
def inboxCanAccessCard (card : Card) (viewerId : Nat)
    (boardRoles : List (Option BoardRole)) : Bool :=
  card.ownerId == some viewerId || card.createdBy == viewerId ||
    boardRoles.any (·.isSome)

/-! ### JSON values and parsing (`serde_json`)

Modelled from the spec: `serde_json` is an external crate, so its
grammar is embedded here directly — JSON values with objects kept as
ordered field lists.  `\u` escapes and fractional/exponent number
forms are not modelled (no claim exercises them). -/
inductive Json where
  | null
  | bool (b : Bool)
  | num (n : Int)
  | str (s : String)
  | arr (elems : List Json)
  | obj (fields : List (String × Json))

/-- Rust `char::is_whitespace` restricted to the JSON/`str::trim`
whitespace actually reachable in ASCII responses. -/
def isWs (c : Char) : Bool :=
  c = ' ' || c = '\n' || c = '\t' || c = '\r'

def skipWs (s : List Char) : List Char := s.dropWhile isWs

/-- `str::trim`: whitespace stripped from both ends. -/
def trimChars (s : List Char) : List Char :=
  ((s.dropWhile isWs).reverse.dropWhile isWs).reverse

/-- JSON string escapes (`\u` not modelled). -/
def escChar? (e : Char) : Option Char :=
  if e = 'n' then some '\n'
  else if e = 't' then some '\t'
  else if e = 'r' then some '\r'
  else if e = '"' then some '"'
  else if e = '\\' then some '\\'
  else if e = '/' then some '/'
  else if e = 'b' then some (Char.ofNat 8)
  else if e = 'f' then some (Char.ofNat 12)
  else none

/-- Body of a JSON string, after the opening quote. -/
def parseStringAux : List Char → List Char → Option (String × List Char)
  | _, [] => none
  | acc, c :: rest =>
    if c = '"' then some (String.mk acc.reverse, rest)
    else if c = '\\' then
      match rest with
      | [] => none
      | e :: rest2 =>
        match escChar? e with
        | some ec => parseStringAux (ec :: acc) rest2
        | none => none
    else parseStringAux (c :: acc) rest

/-- Leading decimal digits. -/
def digitsAux : Nat → List Char → Nat × List Char
  | acc, [] => (acc, [])
  | acc, c :: rest =>
    if c.isDigit then digitsAux (acc * 10 + (c.toNat - 48)) rest
    else (acc, c :: rest)

/-- A JSON integer (optional minus sign, then digits). -/
def parseNum : List Char → Option (Int × List Char)
  | [] => none
  | c :: rest =>
    if c = '-' then
      match rest with
      | [] => none
      | d :: _ =>
        if d.isDigit then
          match digitsAux 0 rest with
          | (n, r) => some (-(n : Int), r)
        else none
    else if c.isDigit then
      match digitsAux 0 (c :: rest) with
      | (n, r) => some ((n : Int), r)
    else none

mutual

/-- One JSON value; `fuel` bounds the recursion depth. -/
def parseJson : Nat → List Char → Option (Json × List Char)
  | 0, _ => none
  | Nat.succ fuel, s =>
    match skipWs s with
    | 'n' :: 'u' :: 'l' :: 'l' :: rest => some (Json.null, rest)
    | 't' :: 'r' :: 'u' :: 'e' :: rest => some (Json.bool true, rest)
    | 'f' :: 'a' :: 'l' :: 's' :: 'e' :: rest => some (Json.bool false, rest)
    | '"' :: rest =>
      match parseStringAux [] rest with
      | some (sv, r) => some (Json.str sv, r)
      | none => none
    | '[' :: rest =>
      (match skipWs rest with
       | ']' :: rest2 => some (Json.arr [], rest2)
       | _ =>
         match parseArrItems fuel (skipWs rest) with
         | some (vs, r) => some (Json.arr vs, r)
         | none => none)
    | '{' :: rest =>
      (match skipWs rest with
       | '}' :: rest2 => some (Json.obj [], rest2)
       | _ =>
         match parseObjItems fuel (skipWs rest) with
         | some (fs, r) => some (Json.obj fs, r)
         | none => none)
    | other =>
      match parseNum other with
      | some (n, r) => some (Json.num n, r)
      | none => none

/-- Comma-separated array items up to the closing bracket. -/
def parseArrItems : Nat → List Char → Option (List Json × List Char)
  | 0, _ => none
  | Nat.succ fuel, s =>
    match parseJson fuel s with
    | none => none
    | some (v, rest) =>
      match skipWs rest with
      | ',' :: rest2 =>
        (match parseArrItems fuel (skipWs rest2) with
         | some (vs, r) => some (v :: vs, r)
         | none => none)
      | ']' :: rest2 => some ([v], rest2)
      | _ => none

/-- Comma-separated `"key": value` pairs up to the closing brace. -/
def parseObjItems : Nat → List Char → Option (List (String × Json) × List Char)
  | 0, _ => none
  | Nat.succ fuel, s =>
    match skipWs s with
    | '"' :: rest =>
      (match parseStringAux [] rest with
       | none => none
       | some (key, rest2) =>
         match skipWs rest2 with
         | ':' :: rest3 =>
           (match parseJson fuel (skipWs rest3) with
            | none => none
            | some (v, rest4) =>
              match skipWs rest4 with
              | ',' :: rest5 =>
                (match parseObjItems fuel rest5 with
                 | some (fs, r) => some ((key, v) :: fs, r)
                 | none => none)
              | '}' :: rest5 => some ([(key, v)], rest5)
              | _ => none)
         | _ => none)
    | _ => none

end

/-- `serde_json::from_str` for a whole string: one value, then only
trailing whitespace. -/
def jsonParse (s : String) : Option Json :=
  match parseJson (s.length + 2) s.data with
  | some (v, rest) => if (skipWs rest).isEmpty then some v else none
  | none => none

/-! ### LLM action parsing (`src/handlers/chat.rs`, `src/models/chat.rs`) -/
/-- `models::chat::LlmAction`: `action` and `message` are required
strings, `params` is `#[serde(default)]` (so `Null` when absent). -/
structure LlmAction where
  action : String
  params : Json
  message : String

/-- `models::chat::ActionTaken`. -/
structure ActionTaken where
  action : String
  description : String
  success : Bool
  deriving Repr, DecidableEq

/-- Derived `Deserialize` for `LlmAction` applied to a parsed value:
only objects qualify; a known field given twice is a `duplicate field`
error, a missing required field is an error, unknown fields are
ignored. -/
def llmActionOfJson : Json → Option LlmAction
  | Json.obj fields =>
    (match fields.filter (fun f => f.1 == "action"),
           fields.filter (fun f => f.1 == "params"),
           fields.filter (fun f => f.1 == "message") with
     | [(_, Json.str a)], ps, [(_, Json.str m)] =>
       (match ps with
        | [] => some { action := a, params := Json.null, message := m }
        | [(_, p)] => some { action := a, params := p, message := m }
        | _ => none)
     | _, _, _ => none)
  | _ => none

/-- `serde_json::from_str::<LlmAction>`. -/
def llmFromStr (s : String) : Option LlmAction :=
  (jsonParse s).bind llmActionOfJson

/-- `str::find` for a substring (index of the first match). -/
def findSubAux (needle : List Char) : List Char → Nat → Option Nat
  | [], i => if needle.isEmpty then some i else none
  | c :: rest, i =>
    if needle.isPrefixOf (c :: rest) then some i
    else findSubAux needle rest (i + 1)

def findSub (needle hay : List Char) : Option Nat := findSubAux needle hay 0

/-- `str::rfind` for a substring (index of the last match). -/
def rfindSubAux (needle : List Char) : List Char → Nat → Option Nat → Option Nat
  | [], i, best => if needle.isEmpty then some i else best
  | c :: rest, i, best =>
    if needle.isPrefixOf (c :: rest) then rfindSubAux needle rest (i + 1) (some i)
    else rfindSubAux needle rest (i + 1) best

def rfindSub (needle hay : List Char) : Option Nat := rfindSubAux needle hay 0 none

/-- The brace-matching scan of `parse_llm_response`: depth counting from
the candidate opening brace, yielding the offset of the brace that
closes depth 0. -/
def matchBraceAux : List Char → Int → Nat → Option Nat
  | [], _, _ => none
  | c :: rest, depth, i =>
    if c = '{' then matchBraceAux rest (depth + 1) (i + 1)
    else if c = '}' then
      (if depth - 1 = 0 then some i else matchBraceAux rest (depth - 1) (i + 1))
    else matchBraceAux rest depth (i + 1)

/-- The `while let Some(start) = response[search_start..].find('\x7b')`
loop of `parse_llm_response`: parse each brace-balanced span, keep the
successes in order.  `fuel` dominates the number of iterations
(`search_start` strictly increases). -/
def braceScanAux (r : List Char) : Nat → Nat → List LlmAction → List LlmAction
  | 0, _, acc => acc.reverse
  | Nat.succ fuel, searchStart, acc =>
    match findSub ['{'] (r.drop searchStart) with
    | none => acc.reverse
    | some s =>
      let absStart := searchStart + s
      match matchBraceAux (r.drop absStart) 0 0 with
      | none => acc.reverse
      | some e =>
        let jsonStr := (r.drop absStart).take (e + 1)
        braceScanAux r fuel (absStart + e + 1)
          (match llmFromStr (String.mk jsonStr) with
           | some a => a :: acc
           | none => acc)

def fenceJson : List Char := "```json".data

def fenceNl : List Char := "```\n".data

def fenceBare : List Char := "```".data

/-- `handlers::chat::parse_llm_response`.  `none` models the Rust
panic: when the fence search yields `end < 7` the slice
`&response[start + 7 .. start + end]` has its start index past its end
index and the process aborts.  Every other path returns the list the
Rust function returns. -/
def parseLlmResponse (response : String) : Option (List LlmAction) :=
  let r := trimChars response.data
  match llmFromStr (String.mk r) with
  | some a => some [a]
  | none =>
    let scan := braceScanAux r (r.length + 1) 0 []
    match findSub fenceJson r with
    | none => some scan
    | some start =>
      let tail := r.drop start
      match (findSub fenceNl tail).orElse (fun _ => rfindSub fenceBare tail) with
      | none => some scan
      | some e =>
        if start + e < start + 7 then none
        else
          let jsonStr := trimChars ((r.drop (start + 7)).take (start + e - (start + 7)))
          match llmFromStr (String.mk jsonStr) with
          | some a => some [a]
          | none => some scan

/-- `models::chat::ChatAction`. -/
inductive ChatAction where
  | createBoard
  | deleteBoard
  | createColumn
  | createCard
  | createInboxCard
  | moveCard
  | moveCardCrossBoard
  | assignCard
  | updateStatus
  | createTag
  | addTag
  | addComment
  | listCards
  | listTags
  | deleteColumn
  | deleteTag
  | deleteCard
  | webSearch
  | noAction
  | unknown
  deriving Repr, DecidableEq

/-- `ChatAction::is_read_only`. -/
def ChatAction.isReadOnly : ChatAction → Bool
  | .listCards | .listTags | .webSearch | .noAction => true
  | _ => false

/-- `ChatAction::fmt` (`Display`). -/
def ChatAction.toStr : ChatAction → String
  | .createBoard => "create_board"
  | .deleteBoard => "delete_board"
  | .createColumn => "create_column"
  | .createCard => "create_card"
  | .createInboxCard => "create_inbox_card"
  | .moveCard => "move_card"
  | .moveCardCrossBoard => "move_card_cross_board"
  | .assignCard => "assign_card"
  | .updateStatus => "update_status"
  | .createTag => "create_tag"
  | .addTag => "add_tag"
  | .addComment => "add_comment"
  | .listCards => "list_cards"
  | .listTags => "list_tags"
  | .deleteColumn => "delete_column"
  | .deleteTag => "delete_tag"
  | .deleteCard => "delete_card"
  | .webSearch => "web_search"
  | .noAction => "no_action"
  | .unknown => "unknown"

/-- `ChatAction::from_str`: lower-case, strip underscores, match; every
unrecognized name is `Ok(Unknown)` (the parse is total). -/
def chatActionFromStr (s : String) : ChatAction :=
  let n := String.mk ((lc s).data.filter (fun c => c != '_'))
  if n = "createboard" then .createBoard
  else if n = "deleteboard" then .deleteBoard
  else if n = "createcolumn" then .createColumn
  else if n = "createcard" then .createCard
  else if n = "createinboxcard" ∨ n = "inboxcard" then .createInboxCard
  else if n = "movecard" then .moveCard
  else if n = "movecardcrossboard" then .moveCardCrossBoard
  else if n = "assigncard" ∨ n = "assigntoboard" then .assignCard
  else if n = "updatestatus" ∨ n = "setstatus" ∨ n = "changestatus" then .updateStatus
  else if n = "createtag" then .createTag
  else if n = "addtag" then .addTag
  else if n = "addcomment" ∨ n = "comment" then .addComment
  else if n = "listcards" then .listCards
  else if n = "listtags" then .listTags
  else if n = "deletecolumn" then .deleteColumn
  else if n = "deletetag" then .deleteTag
  else if n = "deletecard" then .deleteCard
  else if n = "websearch" ∨ n = "search" then .webSearch
  else if n = "noaction" then .noAction
  else .unknown

/-! ### Chat action execution (`src/handlers/chat.rs`)

The single-board executor `execute_action` and the board-creation
executor are abstracted as function parameters (`ex`, `exc`, `excb`,
`exb`): the properties proved below hold for every such executor,
because the permission gates fire before the executor is reached.
`none` models a hard error (`?` propagation). -/
/-- A row of `boards` as far as the chat handlers read it. -/
structure Board where
  id : Nat
  name : String
  deriving Repr, DecidableEq

/-- `handlers::chat::role_can_edit`. -/
def roleCanEdit (role : String) : Bool :=
  lc role == "owner" || lc role == "editor"

/-- `handlers::chat::find_board_by_name` applied to the result of
`BoardRepository::list_for_user` (a list of board/role-string pairs):
first board whose lower-cased name matches. -/
def findBoardByName (boards : List (Board × String)) (name : String) :
    Option (Board × String) :=
  boards.find? (fun br => lc br.1.name == lc name)

/-- `action.params[key].as_str()`: `Value::index` is `Null` for
missing keys and non-objects, `as_str` keeps only strings. -/
def Json.getStr? : Json → String → Option String
  | Json.obj fields, key =>
    (match fields.find? (fun f => f.1 == key) with
     | some (_, Json.str s) => some s
     | _ => none)
  | _, _ => none

/-- `params[k1].as_str().or_else(|| params[k2].as_str()).unwrap_or("")`. -/
def paramStr2 (p : Json) (k1 k2 : String) : String :=
  ((p.getStr? k1).orElse (fun _ => p.getStr? k2)).getD ""

/-- Three-key alias chain, `unwrap_or("")`. -/
def paramStr3 (p : Json) (k1 k2 k3 : String) : String :=
  (((p.getStr? k1).orElse (fun _ => p.getStr? k2)).orElse
    (fun _ => p.getStr? k3)).getD ""

/-- The `readonly_actions` literal of `send_message`. -/
def readonlyNames : List String :=
  ["no_action", "noaction", "list_cards", "listcards", "list_tags", "listtags"]

/-- The action loop of the board-chat `send_message` handler: read-only
action names are skipped; otherwise the action runs only `if
role.can_edit()` — a denied action is skipped silently (only a log
line), leaving state and outcome list untouched. -/
def sendMessageActions {σ : Type} (ex : σ → LlmAction → Option (σ × ActionTaken))
    (role : BoardRole) : σ → List LlmAction → Option (σ × List ActionTaken)
  | st, [] => some (st, [])
  | st, a :: rest =>
    if readonlyNames.contains a.action then
      sendMessageActions ex role st rest
    else if role.canEdit then
      match ex st a with
      | none => none
      | some (st1, r) =>
        match sendMessageActions ex role st1 rest with
        | none => none
        | some (st2, rs) => some (st2, r :: rs)
    else
      sendMessageActions ex role st rest

/-- `handlers::chat::execute_global_action`: special-case the two
board-free actions, answer read-only actions directly, then resolve the
`board` parameter, and gate on `role_can_edit` before running the
single-board executor `exb`.  (The `Params: \x7b…\x7d` debug dump
appended to the missing-board message is not modelled.) -/
def executeGlobalAction {σ : Type}
    (exc excb : σ → LlmAction → Option (σ × ActionTaken))
    (exb : σ → Nat → LlmAction → Option (σ × ActionTaken))
    (boards : List (Board × String)) (st : σ) (action : LlmAction) :
    Option (σ × ActionTaken) :=
  let ca := chatActionFromStr action.action
  if ca = ChatAction.moveCardCrossBoard then exc st action
  else if ca = ChatAction.createBoard then excb st action
  else if ca.isReadOnly then
    some (st, { action := ca.toStr, description := "No modification made",
                success := true })
  else
    let boardName := paramStr2 action.params "board" "board_name"
    if boardName = "" then
      some (st, { action := ca.toStr,
                  description := "Missing board name. Please specify which board.",
                  success := false })
    else
      match findBoardByName boards boardName with
      | none =>
        some (st, { action := ca.toStr,
                    description := "Board \x27" ++ boardName ++ "\x27 not found",
                    success := false })
      | some (board, role) =>
        if !roleCanEdit role then
          some (st, { action := ca.toStr,
                      description := "You don\x27t have permission to edit board \x27"
                        ++ board.name ++ "\x27",
                      success := false })
        else exb st board.id action

/-- `CardVisibility::fmt` (`Display`). -/
def CardVisibility.toStr : CardVisibility → String
  | .private_ => "private"
  | .restricted => "restricted"
  | .public => "public"

/-- Insertion step for `ORDER BY position` on cards. -/
def insertCardByPos (c : Card) : List Card → List Card
  | [] => [c]
  | d :: ds =>
    if c.position ≤ d.position then c :: d :: ds else d :: insertCardByPos c ds

/-- Insertion step for `ORDER BY position` on columns. -/
def insertColumnByPos (c : Column) : List Column → List Column
  | [] => [c]
  | d :: ds =>
    if c.position ≤ d.position then c :: d :: ds else d :: insertColumnByPos c ds

/-- `ColumnRepository::list_by_board`: `WHERE board_id = $1 ORDER BY
position`. -/
def listColumnsByBoard (cols : List Column) (boardId : Nat) : List Column :=
  (cols.filter (fun c => c.boardId == boardId)).foldr insertColumnByPos []

/-- `CardRepository::list_by_column`: `WHERE column_id = $1 ORDER BY
position`. -/
def listCardsByColumn (cards : List Card) (colId : Nat) : List Card :=
  (cards.filter (fun c => c.columnId == colId)).foldr insertCardByPos []

/-- The card search of `execute_cross_board_move`: walk the source
board's columns in order, return the first card whose lower-cased
title matches. -/
def findCardInColumns (cards : List Card) : List Column → String → Option Card
  | [], _ => none
  | col :: rest, title =>
    match (listCardsByColumn cards col.id).find?
        (fun c => lc c.title == lc title) with
    | some c => some c
    | none => findCardInColumns cards rest title

/-- The card `execute_cross_board_move` hands to
`CardRepository::create`: a fresh id (`genId` stands for
`Uuid::new_v4()`), the source card's content, `position = None` (so
appended at `MAX(position)+1`), the re-parsed visibility
(`unwrap_or(Restricted)`), and `created_by = user_id` — the acting
user, not the original creator. -/
def crossMovedCard (cards : List Card) (genId targetColId : Nat) (src : Card)
    (userId : Nat) : Card :=
  (createCard cards genId targetColId src.title src.body none
    ((visFromString src.visibility).getD CardVisibility.restricted).toStr
    src.startDate src.endDate src.dueDate userId).1

/-- `handlers::chat::execute_cross_board_move`: resolve the four
(alias-chained) parameters, both boards, check `role_can_edit` on
both, locate the card by title and the target column by name, then
*create a new card* in the target column and delete the source card.
(The `Got: \x7b…\x7d` debug dump in the missing-params message is not
modelled.) -/
def execCrossBoardMove (cards : List Card) (cols : List Column)
    (boards : List (Board × String)) (userId genId : Nat) (action : LlmAction) :
    Option (List Card × ActionTaken) :=
  let fromBoardName := paramStr3 action.params "from_board" "source_board" "source"
  let toBoardName := paramStr3 action.params "to_board" "target_board" "destination"
  let cardTitle := paramStr3 action.params "card" "card_title" "title"
  let targetColumn := paramStr3 action.params "column" "target_column" "to_column"
  if fromBoardName = "" ∨ toBoardName = "" ∨ cardTitle = "" ∨ targetColumn = "" then
    some (cards,
      { action := "move_card_cross_board",
        description := "Missing params. Need from_board, to_board, card, column.",
        success := false })
  else
    match findBoardByName boards fromBoardName with
    | none =>
      some (cards,
        { action := "move_card_cross_board",
          description := "Source board \x27" ++ fromBoardName ++ "\x27 not found",
          success := false })
    | some (sourceBoard, sourceRole) =>
      match findBoardByName boards toBoardName with
      | none =>
        some (cards,
          { action := "move_card_cross_board",
            description := "Target board \x27" ++ toBoardName ++ "\x27 not found",
            success := false })
      | some (targetBoard, targetRole) =>
        if !roleCanEdit sourceRole then
          some (cards,
            { action := "move_card_cross_board",
              description := "You don\x27t have permission to edit board \x27"
                ++ sourceBoard.name ++ "\x27",
              success := false })
        else if !roleCanEdit targetRole then
          some (cards,
            { action := "move_card_cross_board",
              description := "You don\x27t have permission to edit board \x27"
                ++ targetBoard.name ++ "\x27",
              success := false })
        else
          match findCardInColumns cards (listColumnsByBoard cols sourceBoard.id)
              cardTitle with
          | none =>
            some (cards,
              { action := "move_card_cross_board",
                description := "Card \x27" ++ cardTitle ++ "\x27 not found in board \x27"
                  ++ sourceBoard.name ++ "\x27",
                success := false })
          | some sourceCard =>
            match (listColumnsByBoard cols targetBoard.id).find?
                (fun c => lc c.name == lc targetColumn) with
            | none =>
              some (cards,
                { action := "move_card_cross_board",
                  description := "Column \x27" ++ targetColumn
                    ++ "\x27 not found in board \x27" ++ targetBoard.name ++ "\x27",
                  success := false })
            | some targetCol =>
              match deleteCard (cards ++
                  [crossMovedCard cards genId targetCol.id sourceCard userId])
                  sourceCard.id with
              | none => none
              | some cards2 =>
                some (cards2,
                  { action := "move_card_cross_board",
                    description := "Moved \x27" ++ sourceCard.title ++ "\x27 from \x27"
                      ++ sourceBoard.name ++ "\x27 to \x27" ++ targetBoard.name
                      ++ "\x27 (column \x27" ++ targetCol.name ++ "\x27)",
                    success := true })

/-- The single-object input of the spec example for the parser. -/
def specActionText : String :=
  "\x7b\"action\":\"create_card\",\"params\":\x7b\"column\":\"Todo\",\"title\":\"x\"\x7d,\"message\":\"ok\"\x7d"

/-- The descriptor the spec example parses to. -/
def specExpectedAct : LlmAction :=
  { action := "create_card",
    params := Json.obj [("column", Json.str "Todo"), ("title", Json.str "x")],
    message := "ok" }

/-- A concrete single-board executor over a `Nat` mutation counter. -/
def exC2 : Nat → LlmAction → Option (Nat × ActionTaken) :=
  fun st a =>
    some (st + 1, { action := a.action, description := "executed", success := true })

/-- A concrete board-scoped executor over a `Nat` mutation counter. -/
def exbC2 : Nat → Nat → LlmAction → Option (Nat × ActionTaken) :=
  fun st _ a =>
    some (st + 1, { action := a.action, description := "executed", success := true })

/-- A reader-issued `create_card` request. -/
def actC2 : LlmAction :=
  { action := "create_card", params := Json.null, message := "ok" }

/-- The user's boards as `list_for_user` returns them: one board the
actor can only read. -/
def boardsC2 : List (Board × String) := [({ id := 5, name := "Work" }, "reader")]

/-- A global-chat `create_card` naming that board. -/
def actGlobalC2 : LlmAction :=
  { action := "create_card",
    params := Json.obj [("board", Json.str "Work")],
    message := "" }

/-- One card on board A (column 10), created by user 42. -/
def w10cards : List Card :=
  [{ id := 100, columnId := 10, title := "x", body := none, position := 0,
     visibility := "public", startDate := none, endDate := none, dueDate := none,
     ownerId := none, createdBy := 42 }]

def w10cols : List Column :=
  [{ id := 10, boardId := 1, name := "Todo", position := 0 },
   { id := 20, boardId := 2, name := "Doing", position := 0 }]

def w10boards : List (Board × String) :=
  [({ id := 1, name := "A" }, "owner"), ({ id := 2, name := "B" }, "editor")]

def w10action : LlmAction :=
  { action := "move_card_cross_board",
    params := Json.obj [("from_board", Json.str "A"), ("to_board", Json.str "B"),
                        ("card", Json.str "x"), ("column", Json.str "Doing")],
    message := "" }

/-- The state and outcome the move above produces: the surviving card is
a new row (id 999, created by the acting user 7), the original id 100
is gone. -/
def w10res : List Card × ActionTaken :=
  ([{ id := 999, columnId := 20, title := "x", body := none, position := 0,
      visibility := "public", startDate := none, endDate := none, dueDate := none,
      ownerId := none, createdBy := 7 }],
   { action := "move_card_cross_board",
     description := "Moved \x27x\x27 from \x27A\x27 to \x27B\x27 (column \x27Doing\x27)",
     success := true })

/-! ## Theorems -/
/-! ### Generic list-counting helpers -/
/-- Sum rule for `countP` over a pointwise-disjoint disjunction. -/
theorem countP_or_disjoint {α : Type} (l : List α) (p q : α → Bool)
    (h : ∀ a ∈ l, ¬(p a = true ∧ q a = true)) :
    l.countP (fun a => p a || q a) = l.countP p + l.countP q := by
  induction l with
  | nil => simp
  | cons a t ih =>
    have ha := h a (List.mem_cons_self a t)
    have ht : ∀ b ∈ t, ¬(p b = true ∧ q b = true) :=
      fun b hb => h b (List.mem_cons_of_mem a hb)
    simp only [List.countP_cons]
    rw [ih ht]
    cases hp : p a <;> cases hq : q a <;> simp_all <;> omega

/-- `countP` only depends on the predicate's values on members. -/
theorem countP_congr_mem {α : Type} {l : List α} {p q : α → Bool}
    (h : ∀ a ∈ l, p a = q a) : l.countP p = l.countP q := by
  induction l with
  | nil => rfl
  | cons a t ih =>
    have ha := h a (List.mem_cons_self a t)
    have ht : ∀ b ∈ t, p b = q b := fun b hb => h b (List.mem_cons_of_mem a hb)
    simp only [List.countP_cons, ih ht, ha]

/-- Pulling a constant conjunct out of a `countP`. -/
theorem countP_const_and {α : Type} (l : List α) (c : Bool) (p : α → Bool) :
    l.countP (fun a => c && p a) = if c then l.countP p else 0 := by
  cases c <;> simp

/-- Splitting a `countP` along a second Boolean test. -/
theorem countP_split {α : Type} (l : List α) (p r : α → Bool) :
    l.countP p = l.countP (fun a => p a && r a) + l.countP (fun a => p a && !r a) := by
  induction l with
  | nil => simp
  | cons a t ih =>
    simp only [List.countP_cons]
    cases hp : p a <;> cases hr : r a <;> simp [hp, hr] <;> omega

/-- `find?` through a `map`. -/
theorem find?_map_comp {α β : Type} {p : β → Bool} {f : α → β} :
    ∀ l : List α, (l.map f).find? p = (l.find? (fun a => p (f a))).map f
  | [] => rfl
  | a :: t => by
    simp only [List.map_cons, List.find?]
    cases hp : p (f a) <;> simp [hp, find?_map_comp t]

/-- `map` only depends on the function's values on members. -/
theorem map_congr_mem {α β : Type} {l : List α} {f g : α → β}
    (h : ∀ a ∈ l, f a = g a) : l.map f = l.map g := by
  induction l with
  | nil => rfl
  | cons a t ih =>
    simp only [List.map_cons]
    rw [h a (List.mem_cons_self a t), ih fun b hb => h b (List.mem_cons_of_mem a hb)]

/-! ### Characterizations of the shift updates -/
/-- `shiftSameColumn` only rewrites the `position` field, by the stated
piecewise function. -/
theorem shiftSameColumn_eq (colId : Nat) (movedOld newPos : Int) (c : Card) :
    shiftSameColumn colId movedOld newPos c =
      { c with position :=
        if movedOld < newPos ∧ c.columnId = colId ∧ movedOld < c.position ∧
            c.position ≤ newPos then c.position - 1
        else if newPos < movedOld ∧ c.columnId = colId ∧ newPos ≤ c.position ∧
            c.position < movedOld then c.position + 1
        else c.position } := by
  unfold shiftSameColumn
  split_ifs <;> simp_all <;> omega

/-- `shiftCrossColumn` only rewrites the `position` field: first the gap in
the old column is closed, then a slot in the new column is opened. -/
theorem shiftCrossColumn_eq (oldCol : Nat) (movedOld : Int) (newCol : Nat)
    (newPos : Int) (c : Card) :
    shiftCrossColumn oldCol movedOld newCol newPos c =
      { c with position :=
        ((fun p1 => if c.columnId = newCol ∧ p1 ≥ newPos then p1 + 1 else p1)
          (if c.columnId = oldCol ∧ c.position > movedOld then c.position - 1
           else c.position)) } := by
  cases c
  simp only [shiftCrossColumn]
  split_ifs <;> simp_all

/-- `shiftColumns` only rewrites the `position` field. -/
theorem shiftColumns_eq (boardId : Nat) (movedOld newPos : Int) (c : Column) :
    shiftColumns boardId movedOld newPos c =
      { c with position :=
        if movedOld < newPos ∧ c.boardId = boardId ∧ movedOld < c.position ∧
            c.position ≤ newPos then c.position - 1
        else if newPos < movedOld ∧ c.boardId = boardId ∧ newPos ≤ c.position ∧
            c.position < movedOld then c.position + 1
        else c.position } := by
  unfold shiftColumns
  split_ifs <;> simp_all <;> omega

/-- C5 (confirmed): a same-container move shifts exactly the claimed
band — down by one for `old < pos ≤ new`, up by one for
`new ≤ pos < old` — the moved item takes `new`, and an equal-position
move changes nothing; both for cards (`move_card`) and columns
(`move_column`). -/
theorem moveWithinContainer_spec
    (cards : List Card) (x : Card) (newPos : Int)
    (cols : List Column) (y : Column) (newPosC : Int)
    (hfind : findCardById cards x.id = some x)
    (huniq : ∀ c ∈ cards, c.id = x.id → c = x)
    (hfindC : cols.find? (fun c => c.id == y.id) = some y)
    (huniqC : ∀ c ∈ cols, c.id = y.id → c = y) :
    (moveCard cards x.id x.columnId newPos =
      some ({ x with columnId := x.columnId, position := newPos },
        cards.map (fun c =>
          if c.id = x.id then { c with columnId := x.columnId, position := newPos }
          else { c with position :=
            if newPos > x.position ∧ c.columnId = x.columnId ∧
                x.position < c.position ∧ c.position ≤ newPos then c.position - 1
            else if newPos < x.position ∧ c.columnId = x.columnId ∧
                newPos ≤ c.position ∧ c.position < x.position then c.position + 1
            else c.position }))) ∧
    moveCard cards x.id x.columnId x.position = some (x, cards) ∧
    (moveColumn cols y.id newPosC =
      some ({ y with position := newPosC },
        cols.map (fun c =>
          if c.id = y.id then { c with position := newPosC }
          else { c with position :=
            if newPosC > y.position ∧ c.boardId = y.boardId ∧
                y.position < c.position ∧ c.position ≤ newPosC then c.position - 1
            else if newPosC < y.position ∧ c.boardId = y.boardId ∧
                newPosC ≤ c.position ∧ c.position < y.position then c.position + 1
            else c.position }))) ∧
    moveColumn cols y.id y.position = some (y, cols) := by
  refine ⟨?_, ?_, ?_, ?_⟩
  · unfold moveCard
    rw [hfind]
    simp only [beq_self_eq_true, if_true, List.map_map]
    refine congrArg some (Prod.ext rfl ?_)
    apply map_congr_mem
    intro c hc
    by_cases hid : c.id = x.id
    · have hcx := huniq c hc hid
      subst hcx
      simp only [Function.comp_apply, shiftSameColumn_eq]
      simp
    · have hbe : (c.id == x.id) = false := by simp [hid]
      simp only [Function.comp_apply, shiftSameColumn_eq, hbe, Bool.false_eq_true, if_false,
        if_neg hid]
  · unfold moveCard
    rw [hfind]
    simp only [beq_self_eq_true, if_true, List.map_map]
    refine congrArg some (Prod.ext rfl ?_)
    conv_rhs => rw [← List.map_id cards]
    apply map_congr_mem
    intro c hc
    by_cases hid : c.id = x.id
    · have hcx := huniq c hc hid
      subst hcx
      simp only [Function.comp_apply, shiftSameColumn_eq]
      simp
    · have hbe : (c.id == x.id) = false := by simp [hid]
      simp only [Function.comp_apply, shiftSameColumn_eq, hbe, Bool.false_eq_true, if_false,
        id_eq]
      have h1 : ¬(x.position < x.position ∧ c.columnId = x.columnId ∧
          x.position < c.position ∧ c.position ≤ x.position) := by omega
      have h2 : ¬(x.position < x.position ∧ c.columnId = x.columnId ∧
          x.position ≤ c.position ∧ c.position < x.position) := by omega
      rw [if_neg h1, if_neg h2]
  · unfold moveColumn
    rw [hfindC]
    simp only [List.map_map]
    refine congrArg some (Prod.ext rfl ?_)
    apply map_congr_mem
    intro c hc
    by_cases hid : c.id = y.id
    · have hcy := huniqC c hc hid
      subst hcy
      simp only [Function.comp_apply, shiftColumns_eq]
      simp
    · have hbe : (c.id == y.id) = false := by simp [hid]
      simp only [Function.comp_apply, shiftColumns_eq, hbe, Bool.false_eq_true, if_false,
        if_neg hid]
  · unfold moveColumn
    rw [hfindC]
    simp only [List.map_map]
    refine congrArg some (Prod.ext rfl ?_)
    conv_rhs => rw [← List.map_id cols]
    apply map_congr_mem
    intro c hc
    by_cases hid : c.id = y.id
    · have hcy := huniqC c hc hid
      subst hcy
      simp only [Function.comp_apply, shiftColumns_eq]
      simp
    · have hbe : (c.id == y.id) = false := by simp [hid]
      simp only [Function.comp_apply, shiftColumns_eq, hbe, Bool.false_eq_true, if_false,
        id_eq]
      have h1 : ¬(y.position < y.position ∧ c.boardId = y.boardId ∧
          y.position < c.position ∧ c.position ≤ y.position) := by omega
      have h2 : ¬(y.position < y.position ∧ c.boardId = y.boardId ∧
          y.position ≤ c.position ∧ c.position < y.position) := by omega
      rw [if_neg h1, if_neg h2]

/-- Eta helper: overwriting `position` with its own value is the identity. -/
theorem card_pos_eta (c : Card) (v : Int) (h : v = c.position) :
    ({ c with position := v } : Card) = c := by subst h; rfl

/-- One non-moved card is restored exactly by the pair of cross-container
moves (there and back). -/
theorem crossBack_elem (x c : Card) (B : Nat) (q : Int)
    (hAB : x.columnId ≠ B) (hid : c.id ≠ x.id)
    (hpp : c.columnId = x.columnId → c.position ≠ x.position) :
    shiftCrossColumn B q x.columnId x.position
      (if ((shiftCrossColumn x.columnId x.position B q c).id == x.id) = true
       then { shiftCrossColumn x.columnId x.position B q c with
                columnId := B, position := q }
       else shiftCrossColumn x.columnId x.position B q c) = c := by
  have hbe : (c.id == x.id) = false := by simp [hid]
  rw [shiftCrossColumn_eq x.columnId x.position B q c]
  dsimp only
  simp only [hbe, Bool.false_eq_true, if_false]
  rw [shiftCrossColumn_eq]
  dsimp only
  apply card_pos_eta
  by_cases hcA : c.columnId = x.columnId
  · have hpq := hpp hcA
    split_ifs <;> omega
  · split_ifs <;> omega

/-- C6 (confirmed): moving card `x` from column A position `p` to
column B position `q` and then back to A at `p` (positions in range,
ids unique) restores every card of the table to its original position
assignment. -/
theorem moveCard_round_trip (cards : List Card) (x : Card) (B : Nat) (q : Int)
    (hfind : findCardById cards x.id = some x)
    (huniq : ∀ c ∈ cards, c.id = x.id → c = x)
    (hAB : x.columnId ≠ B)
    (hpos : ∀ c ∈ cards, c.id ≠ x.id → c.columnId = x.columnId →
      c.position ≠ x.position) :
    ∃ s1, moveCard cards x.id B q =
        some ({ x with columnId := B, position := q }, s1) ∧
      moveCard s1 x.id x.columnId x.position = some (x, cards) := by
  have hne : (x.columnId == B) = false := by simp [hAB]
  refine ⟨cards.map
      ((fun d => if d.id == x.id then { d with columnId := B, position := q } else d) ∘
        shiftCrossColumn x.columnId x.position B q), ?_, ?_⟩
  · unfold moveCard
    rw [hfind]
    simp only [hne, Bool.false_eq_true, if_false, List.map_map]
  · unfold moveCard
    have hidpres : ∀ c : Card,
        ((fun d => if d.id == x.id then { d with columnId := B, position := q } else d)
          (shiftCrossColumn x.columnId x.position B q c)).id = c.id := by
      intro c
      rw [shiftCrossColumn_eq]
      by_cases hcd : c.id = x.id <;> simp [hcd]
    have hxim :
        ((fun d => if d.id == x.id then { d with columnId := B, position := q } else d) ∘
          shiftCrossColumn x.columnId x.position B q) x =
        ({ x with columnId := B, position := q } : Card) := by
      simp only [Function.comp_apply]
      rw [shiftCrossColumn_eq]
      have h1 : ¬(x.columnId = x.columnId ∧ x.position > x.position) := by omega
      have h2 : ¬(x.columnId = B ∧ x.position ≥ q) := by
        intro h
        exact hAB h.1
      rw [if_neg h1]
      simp only []
      rw [if_neg h2]
      simp
    have hfind1 : findCardById (cards.map
        ((fun d => if d.id == x.id then { d with columnId := B, position := q } else d) ∘
          shiftCrossColumn x.columnId x.position B q)) x.id =
        some ({ x with columnId := B, position := q } : Card) := by
      unfold findCardById
      rw [find?_map_comp]
      have : (fun c => (((fun d => if d.id == x.id then
            { d with columnId := B, position := q } else d) ∘
            shiftCrossColumn x.columnId x.position B q) c).id == x.id) =
          (fun c : Card => c.id == x.id) := by
        funext c
        rw [Function.comp_apply, hidpres c]
      rw [this]
      unfold findCardById at hfind
      rw [hfind]
      exact congrArg some hxim
    rw [hfind1]
    have hne2 : (B == x.columnId) = false := by
      simp only [beq_eq_false_iff_ne]
      exact fun h => hAB h.symm
    simp only [hne2, Bool.false_eq_true, if_false, List.map_map]
    refine congrArg some (Prod.ext rfl ?_)
    conv_rhs => rw [← List.map_id cards]
    apply map_congr_mem
    intro c hc
    by_cases hid : c.id = x.id
    · have hcx := huniq c hc hid
      subst hcx
      simp only [Function.comp_apply, id_eq]
      have e1 : shiftCrossColumn c.columnId c.position B q c = c := by
        rw [shiftCrossColumn_eq]
        rw [if_neg (show ¬(c.columnId = c.columnId ∧ c.position > c.position) by omega)]
        simp only []
        rw [if_neg (show ¬(c.columnId = B ∧ c.position ≥ q) from fun h => hAB h.1)]
      rw [e1]
      simp only [beq_self_eq_true, if_true]
      have e3 : shiftCrossColumn B q c.columnId c.position
          ({ c with columnId := B, position := q } : Card) =
          ({ c with columnId := B, position := q } : Card) := by
        rw [shiftCrossColumn_eq]
        dsimp only
        rw [if_neg (show ¬(B = B ∧ q > q) by omega)]
        rw [if_neg (show ¬(B = c.columnId ∧ q ≥ c.position) from
          fun h => hAB h.1.symm)]
      rw [e3]
      simp
    · have hbe : (c.id == x.id) = false := by simp [hid]
      have hcp := hpos c hc hid
      simp only [Function.comp_apply, id_eq]
      rw [crossBack_elem x c B q hAB hid hcp]
      have hbe2 : ((c.id == x.id) = true) = False := by simp [hid]
      simp only [hbe2, if_false]

theorem maxInt?_eq_none_iff (l : List Int) : maxInt? l = none ↔ l = [] := by
  cases l with
  | nil => simp [maxInt?]
  | cons a t =>
    simp only [maxInt?]
    cases maxInt? t <;> simp

theorem maxInt?_le (l : List Int) (m : Int) (hm : maxInt? l = some m) :
    ∀ p ∈ l, p ≤ m := by
  induction l generalizing m with
  | nil => simp [maxInt?] at hm
  | cons a t ih =>
    intro p hp
    simp only [maxInt?] at hm
    rcases ht : maxInt? t with _ | m' <;> rw [ht] at hm
    · have : t = [] := (maxInt?_eq_none_iff t).mp ht
      subst this
      simp at hp
      subst hp
      simp at hm
      omega
    · simp at hm
      rcases List.mem_cons.mp hp with rfl | hpt
      · omega
      · have := ih m' ht p hpt
        omega

theorem maxInt?_mem (l : List Int) (m : Int) (hm : maxInt? l = some m) : m ∈ l := by
  induction l generalizing m with
  | nil => simp [maxInt?] at hm
  | cons a t ih =>
    simp only [maxInt?] at hm
    rcases ht : maxInt? t with _ | m' <;> rw [ht] at hm
    · simp at hm
      simp [hm]
    · simp at hm
      subst hm
      rcases le_total a m' with h | h
      · simp [max_eq_right h, List.mem_cons]
        exact Or.inr (ih m' ht)
      · simp [max_eq_left h]

theorem maxInt?_spec (l : List Int) (m : Int) (hmem : m ∈ l)
    (hub : ∀ p ∈ l, p ≤ m) : maxInt? l = some m := by
  cases hx : maxInt? l with
  | none =>
    rw [maxInt?_eq_none_iff] at hx
    subst hx
    simp at hmem
  | some m' =>
    have h1 := maxInt?_le l m' hx m hmem
    have h2 := hub m' (maxInt?_mem l m' hx)
    have : m' = m := le_antisymm h2 h1
    rw [this]

/-- `cntPos` as a count over the column's position list. -/
theorem cntPos_eq_count (cards : List Card) (col : Nat) (p : Int) :
    cntPos cards col p = (colPositions cards col).count p := by
  unfold cntPos colPositions
  rw [List.count_eq_countP, List.countP_map, List.countP_filter]
  apply countP_congr_mem
  intro c _
  simp only [Function.comp_apply]
  cases h1 : (c.columnId == col) <;> cases h2 : (c.position == p) <;> simp [h1, h2]

theorem dense_maxPos (cards : List Card) (col : Nat) (h : dense cards col) :
    (maxPosCards cards col).getD (-1) = (colSize cards col : Int) - 1 := by
  by_cases hn : colSize cards col = 0
  · have hnil : cards.filter (fun c => c.columnId == col) = [] := by
      rw [List.filter_eq_nil]
      intro c hc
      intro hcol
      have h1 : cntPos cards col c.position = 0 := by
        have h2 := h c.position
        by_contra hne
        have h3 : cntPos cards col c.position = 1 := by
          rw [h2]
          rw [h2] at hne
          by_contra h4
          exact hne (by simp_all)
        rw [h2] at h3
        split at h3 <;> omega
      have h4 : 0 < cntPos cards col c.position := by
        unfold cntPos
        rw [List.countP_pos]
        exact ⟨c, hc, by simp [hcol]⟩
      omega
    unfold maxPosCards colPositions
    rw [hnil]
    simp [maxInt?, hn]
  · have hub : ∀ p ∈ colPositions cards col, p ≤ (colSize cards col : Int) - 1 := by
      intro p hp
      have hcnt := h p
      rw [cntPos_eq_count] at hcnt
      by_contra hgt
      push_neg at hgt
      have h0 : (colPositions cards col).count p = 0 := by
        rw [hcnt, if_neg (by omega)]
      exact (List.count_eq_zero.mp h0) hp
    have hmem : ((colSize cards col : Int) - 1) ∈ colPositions cards col := by
      have hcnt := h ((colSize cards col : Int) - 1)
      rw [cntPos_eq_count] at hcnt
      rw [if_pos (by omega)] at hcnt
      by_contra habs
      rw [List.count_eq_zero.mpr habs] at hcnt
      omega
    unfold maxPosCards
    rw [maxInt?_spec _ _ hmem hub]
    rfl

/-- Appending a row at position `colSize` keeps every container dense. -/
theorem denseAll_append (cards : List Card) (newCard : Card)
    (hdense : denseAll cards)
    (hpos : newCard.position = (colSize cards newCard.columnId : Int)) :
    denseAll (cards ++ [newCard]) := by
  intro C p
  have hsz : colSize (cards ++ [newCard]) C =
      colSize cards C + (if newCard.columnId = C then 1 else 0) := by
    unfold colSize
    rw [List.countP_append]
    simp only [List.countP_cons, List.countP_nil]
    by_cases hc : newCard.columnId = C <;> simp [hc]
  have hcnt : cntPos (cards ++ [newCard]) C p =
      cntPos cards C p + (if newCard.columnId = C ∧ newCard.position = p then 1 else 0) := by
    unfold cntPos
    rw [List.countP_append]
    simp only [List.countP_cons, List.countP_nil]
    by_cases hc : newCard.columnId = C <;> by_cases hq : newCard.position = p <;>
      simp [hc, hq]
  rw [hcnt, hsz, hdense C p]
  by_cases hc : newCard.columnId = C
  · subst hc
    rw [hpos]
    split_ifs <;> (try rfl) <;> push_cast <;> omega
  · simp only [hc, false_and, if_false, if_neg hc]
    split_ifs <;> push_cast <;> omega

theorem moveCard_same_map (cards : List Card) (x : Card) (newPos : Int)
    (hfind : findCardById cards x.id = some x)
    (huniq : ∀ c ∈ cards, c.id = x.id → c = x) :
    moveCard cards x.id x.columnId newPos =
      some ({ x with columnId := x.columnId, position := newPos },
        cards.map (fun c =>
          if c.id = x.id then { c with columnId := x.columnId, position := newPos }
          else { c with position := gvalSame x newPos c })) := by
  unfold moveCard
  rw [hfind]
  simp only [beq_self_eq_true, if_true, List.map_map]
  refine congrArg some (Prod.ext rfl ?_)
  apply map_congr_mem
  intro c hc
  by_cases hid : c.id = x.id
  · have hcx := huniq c hc hid
    subst hcx
    simp only [Function.comp_apply, shiftSameColumn_eq]
    simp
  · have hbe : (c.id == x.id) = false := by simp [hid]
    simp only [Function.comp_apply, shiftSameColumn_eq, hbe, Bool.false_eq_true, if_false,
      if_neg hid]
    exact congrArg (fun v => ({ c with position := v } : Card))
      (by unfold gvalSame; split_ifs <;> omega)

theorem moveCard_cross_map (cards : List Card) (x : Card) (B : Nat) (q : Int)
    (hfind : findCardById cards x.id = some x)
    (huniq : ∀ c ∈ cards, c.id = x.id → c = x)
    (hAB : x.columnId ≠ B) :
    moveCard cards x.id B q =
      some ({ x with columnId := B, position := q },
        cards.map (fun c =>
          if c.id = x.id then { c with columnId := B, position := q }
          else { c with position := gvalCross x B q c })) := by
  unfold moveCard
  rw [hfind]
  have hne : (x.columnId == B) = false := by simp [hAB]
  simp only [hne, Bool.false_eq_true, if_false, List.map_map]
  refine congrArg some (Prod.ext rfl ?_)
  apply map_congr_mem
  intro c hc
  by_cases hid : c.id = x.id
  · have hcx := huniq c hc hid
    subst hcx
    simp only [Function.comp_apply]
    rw [shiftCrossColumn_eq]
    dsimp only
    simp
  · have hbe : (c.id == x.id) = false := by simp [hid]
    simp only [Function.comp_apply]
    rw [shiftCrossColumn_eq]
    dsimp only
    simp only [hbe, Bool.false_eq_true, if_false, if_neg hid]
    unfold gvalCross
    rfl

theorem cnt_map_canonical (cards : List Card) (x : Card) (A2 : Nat) (p2 : Int)
    (gval : Card → Int)
    (hone : cards.countP (fun c => c.id == x.id) = 1) (C : Nat) (p : Int) :
    cntPos (cards.map (fun c =>
        if c.id = x.id then { c with columnId := A2, position := p2 }
        else { c with position := gval c })) C p =
    (if A2 = C ∧ p2 = p then 1 else 0) +
      cards.countP (fun c => !(c.id == x.id) && (c.columnId == C && gval c == p)) := by
  unfold cntPos
  rw [List.countP_map]
  have h1 := countP_congr_mem (l := cards)
    (p := (fun d => d.columnId == C && d.position == p) ∘ (fun c =>
        if c.id = x.id then { c with columnId := A2, position := p2 }
        else { c with position := gval c }))
    (q := fun c => (c.id == x.id) && (A2 == C && p2 == p) ||
        (!(c.id == x.id) && (c.columnId == C && gval c == p)))
    (by
      intro c _
      simp only [Function.comp_apply]
      by_cases hid : c.id = x.id
      · have hbe : (c.id == x.id) = true := by simp [hid]
        simp [hid, hbe]
      · have hbe : (c.id == x.id) = false := by simp [hid]
        simp [hid, hbe])
  rw [h1]
  rw [countP_or_disjoint _ _ _ (by
    intro c _ hcon
    rcases hcon with ⟨hc1, hc2⟩
    simp only [Bool.and_eq_true, Bool.not_eq_true'] at hc1 hc2
    rw [hc1.1] at hc2
    simp at hc2)]
  congr 1
  have h2 := countP_congr_mem (l := cards)
    (p := fun c => (c.id == x.id) && (A2 == C && p2 == p))
    (q := fun c => (A2 == C && p2 == p) && (c.id == x.id))
    (by intro c _; exact Bool.and_comm _ _)
  rw [h2, countP_const_and, hone]
  by_cases ha : A2 = C <;> by_cases hp2 : p2 = p <;> simp [ha, hp2]

/-- Column sizes after the canonical move map. -/
theorem colSize_map_canonical (cards : List Card) (x : Card) (A2 : Nat) (p2 : Int)
    (gval : Card → Int)
    (hone : cards.countP (fun c => c.id == x.id) = 1) (C : Nat) :
    colSize (cards.map (fun c =>
        if c.id = x.id then { c with columnId := A2, position := p2 }
        else { c with position := gval c })) C =
    (if A2 = C then 1 else 0) + sizeOthers cards x.id C := by
  unfold colSize sizeOthers
  rw [List.countP_map]
  have h1 := countP_congr_mem (l := cards)
    (p := (fun d => d.columnId == C) ∘ (fun c =>
        if c.id = x.id then { c with columnId := A2, position := p2 }
        else { c with position := gval c }))
    (q := fun c => (c.id == x.id) && (A2 == C) ||
        (!(c.id == x.id) && (c.columnId == C)))
    (by
      intro c _
      simp only [Function.comp_apply]
      by_cases hid : c.id = x.id
      · have hbe : (c.id == x.id) = true := by simp [hid]
        simp [hid, hbe]
      · have hbe : (c.id == x.id) = false := by simp [hid]
        simp [hid, hbe])
  rw [h1]
  rw [countP_or_disjoint _ _ _ (by
    intro c _ hcon
    rcases hcon with ⟨hc1, hc2⟩
    simp only [Bool.and_eq_true, Bool.not_eq_true'] at hc1 hc2
    rw [hc1.1] at hc2
    simp at hc2)]
  congr 1
  have h2 := countP_congr_mem (l := cards)
    (p := fun c => (c.id == x.id) && (A2 == C))
    (q := fun c => (A2 == C) && (c.id == x.id))
    (by intro c _; exact Bool.and_comm _ _)
  rw [h2, countP_const_and, hone]
  by_cases ha : A2 = C <;> simp [ha]

theorem countP_extract_const {α : Type} (l : List α) (b : Bool) (p q : α → Bool)
    (h : ∀ a, p a = (q a && b)) : l.countP p = if b then l.countP q else 0 := by
  have h1 := countP_congr_mem (l := l) (p := p) (q := fun a => b && q a)
    (by intro a _; rw [h a]; exact Bool.and_comm _ _)
  rw [h1, countP_const_and]

/-- Decomposition of a shifted-position count into the three cells that can
map onto `p` (the shifts are by at most one). -/
theorem countP_gval_decomp (cards : List Card) (xid C : Nat) (p : Int)
    (gval : Card → Int) (F : Int → Int)
    (hg : ∀ c : Card, c.columnId = C → gval c = F c.position)
    (hF : ∀ j : Int, F j = p → j = p - 1 ∨ j = p ∨ j = p + 1) :
    cards.countP (fun c => !(c.id == xid) && (c.columnId == C && gval c == p)) =
      ((if F (p-1) = p then cntOthers cards xid C (p-1) else 0) +
       (if F p = p then cntOthers cards xid C p else 0)) +
      (if F (p+1) = p then cntOthers cards xid C (p+1) else 0) := by
  have h1 := countP_congr_mem (l := cards)
    (p := fun c => !(c.id == xid) && (c.columnId == C && gval c == p))
    (q := fun c =>
      (!(c.id == xid) && (c.columnId == C && c.position == p-1) && decide (F (p-1) = p) ||
       !(c.id == xid) && (c.columnId == C && c.position == p) && decide (F p = p)) ||
      !(c.id == xid) && (c.columnId == C && c.position == p+1) && decide (F (p+1) = p))
    (by
      intro c _
      by_cases hcol : c.columnId = C
      · have hcb : (c.columnId == C) = true := by simp [hcol]
        rw [Bool.eq_iff_iff]
        simp only [hcb, Bool.and_eq_true, Bool.or_eq_true, Bool.not_eq_true', beq_iff_eq,
          decide_eq_true_eq, true_and, and_true]
        constructor
        · rintro ⟨hid, hgp⟩
          rw [hg c hcol] at hgp
          rcases hF _ hgp with h' | h' | h'
          · exact Or.inl (Or.inl ⟨⟨hid, h'⟩, h' ▸ hgp⟩)
          · exact Or.inl (Or.inr ⟨⟨hid, h'⟩, h' ▸ hgp⟩)
          · exact Or.inr ⟨⟨hid, h'⟩, h' ▸ hgp⟩
        · rintro ((⟨⟨hid, h'⟩, hf⟩ | ⟨⟨hid, h'⟩, hf⟩) | ⟨⟨hid, h'⟩, hf⟩) <;>
            exact ⟨hid, by rw [hg c hcol, h']; exact hf⟩
      · have hcb : (c.columnId == C) = false := by simp [hcol]
        simp [hcb])
  rw [h1]
  rw [countP_or_disjoint _ _ _ (by
    intro c _ ⟨ha, hb⟩
    simp only [Bool.or_eq_true, Bool.and_eq_true, beq_iff_eq] at ha hb
    rcases ha with ⟨⟨_, _, h'⟩, _⟩ | ⟨⟨_, _, h'⟩, _⟩ <;>
      rcases hb with ⟨⟨_, _, h''⟩, _⟩ <;> omega)]
  rw [countP_or_disjoint _ _ _ (by
    intro c _ ⟨ha, hb⟩
    simp only [Bool.and_eq_true, beq_iff_eq] at ha hb
    rcases ha with ⟨⟨_, _, h'⟩, _⟩
    rcases hb with ⟨⟨_, _, h''⟩, _⟩
    omega)]
  congr 1
  congr 1
  · rw [countP_extract_const cards (decide (F (p-1) = p)) _
      (fun c => !(c.id == xid) && (c.columnId == C && c.position == (p-1))) (fun a => rfl)]
    by_cases hd : F (p-1) = p <;> simp [hd, cntOthers]
  · rw [countP_extract_const cards (decide (F p = p)) _
      (fun c => !(c.id == xid) && (c.columnId == C && c.position == p)) (fun a => rfl)]
    by_cases hd : F p = p <;> simp [hd, cntOthers]
  · rw [countP_extract_const cards (decide (F (p+1) = p)) _
      (fun c => !(c.id == xid) && (c.columnId == C && c.position == (p+1))) (fun a => rfl)]
    by_cases hd : F (p+1) = p <;> simp [hd, cntOthers]

/-- `cntPos` split into the contribution of card `x` and of the others. -/
theorem cntPos_split_x (cards : List Card) (x : Card) (C : Nat)
    (hone : cards.countP (fun c => c.id == x.id) = 1)
    (huniq : ∀ c ∈ cards, c.id = x.id → c = x) (j : Int) :
    cntPos cards C j =
      (if x.columnId = C ∧ x.position = j then 1 else 0) + cntOthers cards x.id C j := by
  unfold cntPos
  rw [countP_split cards (fun c => c.columnId == C && c.position == j)
    (fun c => c.id == x.id)]
  congr 1
  · have h1 := countP_congr_mem (l := cards)
      (p := fun c => (c.columnId == C && c.position == j) && (c.id == x.id))
      (q := fun c => (c.id == x.id) && decide (x.columnId = C ∧ x.position = j))
      (by
        intro c hm
        by_cases hid : c.id = x.id
        · have hcx := huniq c hm hid
          subst hcx
          rw [Bool.eq_iff_iff]
          simp
        · have hbe : (c.id == x.id) = false := by simp [hid]
          simp [hbe])
    rw [h1]
    have h2 := countP_congr_mem (l := cards)
      (p := fun c => (c.id == x.id) && decide (x.columnId = C ∧ x.position = j))
      (q := fun c => decide (x.columnId = C ∧ x.position = j) && (c.id == x.id))
      (by intro c _; exact Bool.and_comm _ _)
    rw [h2, countP_const_and, hone]
    by_cases hd : x.columnId = C ∧ x.position = j <;> simp [hd]
  · exact countP_congr_mem (by intro c _; exact Bool.and_comm _ _)

/-- `colSize` split into the contribution of card `x` and of the others. -/
theorem colSize_split_x (cards : List Card) (x : Card) (C : Nat)
    (hone : cards.countP (fun c => c.id == x.id) = 1)
    (huniq : ∀ c ∈ cards, c.id = x.id → c = x) :
    colSize cards C = (if x.columnId = C then 1 else 0) + sizeOthers cards x.id C := by
  unfold colSize
  rw [countP_split cards (fun c => c.columnId == C) (fun c => c.id == x.id)]
  congr 1
  · have h1 := countP_congr_mem (l := cards)
      (p := fun c => (c.columnId == C) && (c.id == x.id))
      (q := fun c => (c.id == x.id) && decide (x.columnId = C))
      (by
        intro c hm
        by_cases hid : c.id = x.id
        · have hcx := huniq c hm hid
          subst hcx
          rw [Bool.eq_iff_iff]
          simp
        · have hbe : (c.id == x.id) = false := by simp [hid]
          simp [hbe])
    rw [h1]
    have h2 := countP_congr_mem (l := cards)
      (p := fun c => (c.id == x.id) && decide (x.columnId = C))
      (q := fun c => decide (x.columnId = C) && (c.id == x.id))
      (by intro c _; exact Bool.and_comm _ _)
    rw [h2, countP_const_and, hone]
    by_cases hd : x.columnId = C <;> simp [hd]
  · exact countP_congr_mem (by intro c _; exact Bool.and_comm _ _)

/-- Closed form of `cntOthers` over a dense column. -/
theorem cntOthers_val (cards : List Card) (x : Card) (C : Nat)
    (hdense : dense cards C)
    (hone : cards.countP (fun c => c.id == x.id) = 1)
    (huniq : ∀ c ∈ cards, c.id = x.id → c = x) (j : Int) :
    cntOthers cards x.id C j =
      if 0 ≤ j ∧ j < (colSize cards C : Int) ∧ ¬(x.columnId = C ∧ x.position = j)
      then 1 else 0 := by
  have key := cntPos_split_x cards x C hone huniq
  have hxr : x.columnId = C → 0 ≤ x.position ∧ x.position < (colSize cards C : Int) := by
    intro hxc
    have h1 := key x.position
    rw [hdense x.position,
      if_pos (show x.columnId = C ∧ x.position = x.position from ⟨hxc, rfl⟩)] at h1
    by_contra habs
    rw [if_neg (show ¬(0 ≤ x.position ∧ x.position < (colSize cards C : Int)) from
      by omega)] at h1
    omega
  have h2 := key j
  rw [hdense j] at h2
  by_cases hxc : x.columnId = C
  · have hr := hxr hxc
    by_cases hxj : x.position = j
    · rw [if_pos (show x.columnId = C ∧ x.position = j from ⟨hxc, hxj⟩)] at h2
      rw [if_pos (show 0 ≤ j ∧ j < (colSize cards C : Int) from by omega)] at h2
      rw [if_neg (show ¬(0 ≤ j ∧ j < (colSize cards C : Int) ∧
          ¬(x.columnId = C ∧ x.position = j)) from fun hcon => hcon.2.2 ⟨hxc, hxj⟩)]
      omega
    · rw [if_neg (show ¬(x.columnId = C ∧ x.position = j) from fun h => hxj h.2)] at h2
      by_cases hjr : 0 ≤ j ∧ j < (colSize cards C : Int)
      · rw [if_pos hjr] at h2
        rw [if_pos (show 0 ≤ j ∧ j < (colSize cards C : Int) ∧
            ¬(x.columnId = C ∧ x.position = j) from
          ⟨hjr.1, hjr.2, fun h => hxj h.2⟩)]
        omega
      · rw [if_neg hjr] at h2
        rw [if_neg (show ¬(0 ≤ j ∧ j < (colSize cards C : Int) ∧
            ¬(x.columnId = C ∧ x.position = j)) from fun h => hjr ⟨h.1, h.2.1⟩)]
        omega
  · rw [if_neg (show ¬(x.columnId = C ∧ x.position = j) from fun h => hxc h.1)] at h2
    by_cases hjr : 0 ≤ j ∧ j < (colSize cards C : Int)
    · rw [if_pos hjr] at h2
      rw [if_pos (show 0 ≤ j ∧ j < (colSize cards C : Int) ∧
          ¬(x.columnId = C ∧ x.position = j) from ⟨hjr.1, hjr.2, fun h => hxc h.1⟩)]
      omega
    · rw [if_neg hjr] at h2
      rw [if_neg (show ¬(0 ≤ j ∧ j < (colSize cards C : Int) ∧
          ¬(x.columnId = C ∧ x.position = j)) from fun h => hjr ⟨h.1, h.2.1⟩)]
      omega

/-- A present card's position lies in its column's dense range. -/
theorem x_position_range (cards : List Card) (x : Card)
    (hone : cards.countP (fun c => c.id == x.id) = 1)
    (huniq : ∀ c ∈ cards, c.id = x.id → c = x)
    (hdense : denseAll cards) :
    0 ≤ x.position ∧ x.position < (colSize cards x.columnId : Int) := by
  have key := cntPos_split_x cards x x.columnId hone huniq x.position
  rw [hdense x.columnId x.position,
    if_pos (show x.columnId = x.columnId ∧ x.position = x.position from ⟨rfl, rfl⟩)] at key
  by_contra habs
  rw [if_neg (show ¬(0 ≤ x.position ∧ x.position < (colSize cards x.columnId : Int)) from
    by omega)] at key
  omega

/-- A same-column move to an in-range position keeps every container dense. -/
theorem denseAll_moveCard_same (cards : List Card) (x : Card) (newPos : Int)
    (huniq : ∀ c ∈ cards, c.id = x.id → c = x)
    (hone : cards.countP (fun c => c.id == x.id) = 1)
    (hdense : denseAll cards)
    (h0 : 0 ≤ newPos) (h1 : newPos < (colSize cards x.columnId : Int)) :
    denseAll (cards.map (fun c =>
      if c.id = x.id then { c with columnId := x.columnId, position := newPos }
      else { c with position := gvalSame x newPos c })) := by
  intro C p
  rw [cnt_map_canonical cards x x.columnId newPos (gvalSame x newPos) hone C p,
      colSize_map_canonical cards x x.columnId newPos (gvalSame x newPos) hone C]
  have hxr := x_position_range cards x hone huniq hdense
  have hsz := colSize_split_x cards x C hone huniq
  by_cases hC : x.columnId = C
  · subst hC
    rw [countP_gval_decomp cards x.id x.columnId p (gvalSame x newPos)
      (fun j => if x.position < j ∧ j ≤ newPos ∧ x.position < newPos then j - 1
        else if newPos ≤ j ∧ j < x.position ∧ newPos < x.position then j + 1 else j)
      (by
        intro c hcol
        unfold gvalSame
        split_ifs <;> simp_all <;> omega)
      (by intro j hj; simp only [] at hj; split_ifs at hj <;> omega)]
    rw [cntOthers_val cards x x.columnId (hdense x.columnId) hone huniq (p-1),
        cntOthers_val cards x x.columnId (hdense x.columnId) hone huniq p,
        cntOthers_val cards x x.columnId (hdense x.columnId) hone huniq (p+1)]
    simp only []
    rw [if_pos (show x.columnId = x.columnId from rfl)] at hsz
    have hc1 : ((if x.position < p - 1 ∧ p - 1 ≤ newPos ∧ x.position < newPos then p - 1 - 1
        else if newPos ≤ p - 1 ∧ p - 1 < x.position ∧ newPos < x.position then p - 1 + 1
        else p - 1) = p) ↔
        (newPos ≤ p - 1 ∧ p - 1 < x.position ∧ newPos < x.position) := by
      split_ifs <;> omega
    have hc2 : ((if x.position < p ∧ p ≤ newPos ∧ x.position < newPos then p - 1
        else if newPos ≤ p ∧ p < x.position ∧ newPos < x.position then p + 1
        else p) = p) ↔
        (¬(x.position < p ∧ p ≤ newPos ∧ x.position < newPos) ∧
         ¬(newPos ≤ p ∧ p < x.position ∧ newPos < x.position)) := by
      split_ifs <;> omega
    have hc3 : ((if x.position < p + 1 ∧ p + 1 ≤ newPos ∧ x.position < newPos then p + 1 - 1
        else if newPos ≤ p + 1 ∧ p + 1 < x.position ∧ newPos < x.position then p + 1 + 1
        else p + 1) = p) ↔
        (x.position < p + 1 ∧ p + 1 ≤ newPos ∧ x.position < newPos) := by
      split_ifs <;> omega
    simp only [hc1, hc2, hc3, eq_self_iff_true, true_and]
    split_ifs <;> omega
  · rw [countP_gval_decomp cards x.id C p (gvalSame x newPos) (fun j => j)
      (by
        intro c hcol
        unfold gvalSame
        split_ifs <;> simp_all
      )
      (by intro j hj; simp only [] at hj; omega)]
    rw [cntOthers_val cards x C (hdense C) hone huniq (p-1),
        cntOthers_val cards x C (hdense C) hone huniq p,
        cntOthers_val cards x C (hdense C) hone huniq (p+1)]
    simp only []
    rw [if_neg (show ¬(p - 1 = p) by omega)]
    rw [if_pos trivial]
    rw [if_neg (show ¬(p + 1 = p) by omega)]
    rw [if_neg hC] at hsz
    rw [hsz]
    simp only [hC, false_and, if_false, not_false_eq_true, and_true]
    split_ifs <;> omega

/-- A cross-column move to an in-range destination slot keeps every
container dense. -/
theorem denseAll_moveCard_cross (cards : List Card) (x : Card) (B : Nat) (q : Int)
    (huniq : ∀ c ∈ cards, c.id = x.id → c = x)
    (hone : cards.countP (fun c => c.id == x.id) = 1)
    (hAB : x.columnId ≠ B)
    (hdense : denseAll cards)
    (hq0 : 0 ≤ q) (hq1 : q ≤ (colSize cards B : Int)) :
    denseAll (cards.map (fun c =>
      if c.id = x.id then { c with columnId := B, position := q }
      else { c with position := gvalCross x B q c })) := by
  intro C p
  rw [cnt_map_canonical cards x B q (gvalCross x B q) hone C p,
      colSize_map_canonical cards x B q (gvalCross x B q) hone C]
  have hxr := x_position_range cards x hone huniq hdense
  have hsz := colSize_split_x cards x C hone huniq
  by_cases hCA : C = x.columnId
  · -- the source column: the gap at x's old position is closed
    subst hCA
    have hBC : ¬(B = x.columnId) := fun h => hAB h.symm
    rw [countP_gval_decomp cards x.id x.columnId p (gvalCross x B q)
      (fun j => if j > x.position then j - 1 else j)
      (by
        intro c hcol
        simp only [gvalCross]
        split_ifs <;> simp_all <;> omega)
      (by intro j hj; simp only [] at hj; split_ifs at hj <;> omega)]
    rw [cntOthers_val cards x x.columnId (hdense x.columnId) hone huniq (p-1),
        cntOthers_val cards x x.columnId (hdense x.columnId) hone huniq p,
        cntOthers_val cards x x.columnId (hdense x.columnId) hone huniq (p+1)]
    have hc1 : ¬((if p - 1 > x.position then p - 1 - 1 else p - 1) = p) := by
      split_ifs <;> omega
    have hc2 : ((if p > x.position then p - 1 else p) = p) ↔ ¬(p > x.position) := by
      split_ifs <;> omega
    have hc3 : ((if p + 1 > x.position then p + 1 - 1 else p + 1) = p) ↔
        (p + 1 > x.position) := by
      split_ifs <;> omega
    rw [if_neg hc1]
    simp only [hc2, hc3]
    simp only [eq_self_iff_true, if_true] at hsz
    rw [if_neg hBC]
    rw [hsz]
    clear hc1 hc2 hc3
    obtain ⟨hxr1, hxr2⟩ := hxr
    rw [hsz] at hxr2
    split_ifs <;> simp_all <;> omega
  · by_cases hCB : C = B
    · -- the destination column: a slot is opened at q
      subst hCB
      have hxC : ¬(x.columnId = C) := hAB
      rw [countP_gval_decomp cards x.id C p (gvalCross x C q)
        (fun j => if j ≥ q then j + 1 else j)
        (by
          intro c hcol
          simp only [gvalCross]
          split_ifs <;> simp_all <;> omega)
        (by intro j hj; simp only [] at hj; split_ifs at hj <;> omega)]
      rw [cntOthers_val cards x C (hdense C) hone huniq (p-1),
          cntOthers_val cards x C (hdense C) hone huniq p,
          cntOthers_val cards x C (hdense C) hone huniq (p+1)]
      have hc1 : ((if p - 1 ≥ q then p - 1 + 1 else p - 1) = p) ↔ (p - 1 ≥ q) := by
        split_ifs <;> omega
      have hc2 : ((if p ≥ q then p + 1 else p) = p) ↔ ¬(p ≥ q) := by
        split_ifs <;> omega
      have hc3 : ¬((if p + 1 ≥ q then p + 1 + 1 else p + 1) = p) := by
        split_ifs <;> omega
      rw [if_neg hc3]
      simp only [hc1, hc2]
      rw [if_neg hxC] at hsz
      simp only [eq_self_iff_true, if_true, true_and]
      simp only [hxC, false_and, not_false_eq_true, and_true, if_false] at hsz ⊢
      split_ifs <;> omega
    · -- any other column is untouched
      have hxC : ¬(x.columnId = C) := fun h => hCA h.symm
      rw [countP_gval_decomp cards x.id C p (gvalCross x B q) (fun j => j)
        (by
          intro c hcol
          simp only [gvalCross]
          split_ifs <;> simp_all
        )
        (by intro j hj; simp only [] at hj; omega)]
      rw [cntOthers_val cards x C (hdense C) hone huniq (p-1),
          cntOthers_val cards x C (hdense C) hone huniq p,
          cntOthers_val cards x C (hdense C) hone huniq (p+1)]
      rw [if_neg (show ¬(p - 1 = p) by omega)]
      simp only [eq_self_iff_true, if_true]
      rw [if_neg (show ¬(p + 1 = p) by omega)]
      rw [if_neg hxC] at hsz
      rw [hsz]
      rw [if_neg (show ¬(B = C) from fun h => hCB h.symm)]
      simp only [hxC, false_and, if_false, not_false_eq_true, and_true]
      split_ifs <;> omega

/-- The two-card fixture is dense in every container. -/
theorem denseAll_twoCards : denseAll twoCards := by
  intro col p
  simp only [twoCards, mkCard, cntPos, colSize, List.countP_cons, List.countP_nil]
  by_cases hc : col = 1
  · subst hc
    simp only [beq_self_eq_true]
    by_cases h0 : p = 0 <;> by_cases h1 : p = 1 <;>
      simp [h0, h1] <;> split_ifs <;> omega
  · have : (1 == col) = false := by simp [Ne.symm hc]
    simp [this]
    split_ifs <;> omega

/-- C1 (amended): density of positions is an invariant of `create` without
an explicit position and of in-range `move_card` (same-column moves with
`0 ≤ new < |C|`, cross-column moves with `0 ≤ q ≤ |B|`); it is NOT an
invariant of the full operation set of the original claim — `delete`
never reshuffles and out-of-range or explicit-position inserts break it
(see the counterexample). -/
theorem density_preservation
    (cards : List Card) (newId columnId : Nat) (t : String) (b : Option String)
    (vis : String) (sd ed dd : Option String) (cb : Nat)
    (x : Card) (newPos : Int) (B : Nat) (q : Int)
    (hdense : denseAll cards)
    (hfind : findCardById cards x.id = some x)
    (huniq : ∀ c ∈ cards, c.id = x.id → c = x)
    (hone : cards.countP (fun c => c.id == x.id) = 1) :
    denseAll (createCard cards newId columnId t b none vis sd ed dd cb).2 ∧
    (0 ≤ newPos → newPos < (colSize cards x.columnId : Int) →
      ∀ y s1, moveCard cards x.id x.columnId newPos = some (y, s1) → denseAll s1) ∧
    (x.columnId ≠ B → 0 ≤ q → q ≤ (colSize cards B : Int) →
      ∀ y s2, moveCard cards x.id B q = some (y, s2) → denseAll s2) := by
  refine ⟨?_, ?_, ?_⟩
  · unfold createCard
    apply denseAll_append cards _ hdense
    have hm := dense_maxPos cards columnId (hdense columnId)
    show (maxPosCards cards columnId).getD (-1) + 1 = (colSize cards columnId : Int)
    rw [hm]
    omega
  · intro h0 h1 y s1 hmv
    rw [moveCard_same_map cards x newPos hfind huniq] at hmv
    simp only [Option.some.injEq, Prod.mk.injEq] at hmv
    rw [← hmv.2]
    exact denseAll_moveCard_same cards x newPos huniq hone hdense h0 h1
  · intro hAB hq0 hq1 y s2 hmv
    rw [moveCard_cross_map cards x B q hfind huniq hAB] at hmv
    simp only [Option.some.injEq, Prod.mk.injEq] at hmv
    rw [← hmv.2]
    exact denseAll_moveCard_cross cards x B q huniq hone hAB hdense hq0 hq1

/-- C1 counterexample: starting from a dense two-card column,
`CardRepository::delete` removes the card at position 0 and shifts
nothing, leaving positions {1} instead of {0}. -/
theorem deleteCard_breaks_density :
    cntPos twoCards 1 0 = 1 ∧ cntPos twoCards 1 1 = 1 ∧ colSize twoCards 1 = 2 ∧
    deleteCard twoCards 1 = some [mkCard 2 1 1] ∧
    colSize [mkCard 2 1 1] 1 = 1 ∧ cntPos [mkCard 2 1 1] 1 0 = 0 :=
  ⟨rfl, rfl, rfl, rfl, rfl, rfl⟩

/-- C1 witness: the amended theorem applied to the concrete dense
two-card column. -/
theorem density_preservation_witness :
    findCardById twoCards 2 = some (mkCard 2 1 1) ∧
    twoCards.countP (fun c => c.id == (mkCard 2 1 1).id) = 1 ∧
    cntPos (createCard twoCards 7 1 "t2" none none "restricted" none none none 0).2 1 2 = 1 := by
  refine ⟨rfl, by decide, ?_⟩
  have h := density_preservation twoCards 7 1 "t2" none "restricted" none none none 0
    (mkCard 2 1 1) 0 2 0 denseAll_twoCards rfl (by decide) (by decide)
  have h2 := h.1 1 2
  rw [h2]
  decide

/-- C9 counterexample: `move_card` to position `-3` is accepted and
stored — no validation happens before mutating. -/
theorem moveCard_negative_position_not_rejected :
    moveCard twoCards 2 1 (-3) =
      some (mkCard 2 1 (-3), [mkCard 1 1 1, mkCard 2 1 (-3)]) := rfl

/-- C9 (amended): nothing is rejected: whenever the moved row exists,
`move_card` and `move_column` succeed for EVERY desired position,
negative or arbitrarily large (first two clauses).  Only the append
special case of the claim is real: creating at
`position = container size` equals the position-less append (third
clause). -/
theorem movePosition_not_validated :
    (∀ (cards : List Card) (id newCol : Nat) (newPos : Int),
      (findCardById cards id).isSome → (moveCard cards id newCol newPos).isSome) ∧
    (∀ (cols : List Column) (id : Nat) (newPos : Int),
      (cols.find? (fun c => c.id == id)).isSome → (moveColumn cols id newPos).isSome) ∧
    (∀ (cards : List Card) (newId columnId : Nat) (t : String) (b : Option String)
       (vis : String) (sd ed dd : Option String) (cb : Nat),
      dense cards columnId →
      createCard cards newId columnId t b (some ((colSize cards columnId : Nat) : Int))
          vis sd ed dd cb =
        createCard cards newId columnId t b none vis sd ed dd cb) := by
  refine ⟨?_, ?_, ?_⟩
  · intro cards id newCol newPos h
    unfold moveCard
    cases hf : findCardById cards id with
    | none => rw [hf] at h; simp at h
    | some card => simp
  · intro cols id newPos h
    unfold moveColumn
    cases hf : cols.find? (fun c => c.id == id) with
    | none => rw [hf] at h; simp at h
    | some column => simp
  · intro cards newId columnId t b vis sd ed dd cb hdense
    have hm := dense_maxPos cards columnId hdense
    have hpos : ((colSize cards columnId : Nat) : Int) =
        (maxPosCards cards columnId).getD (-1) + 1 := by omega
    unfold createCard
    rw [hpos]

/-- C9 witness: the amended theorem applied to the concrete two-card
column and two-column board. -/
theorem movePosition_not_validated_witness :
    (findCardById twoCards 2).isSome ∧ (moveCard twoCards 2 1 99).isSome ∧
    (twoColumns.find? (fun c => c.id == 1)).isSome ∧ (moveColumn twoColumns 1 (-5)).isSome ∧
    createCard twoCards 9 1 "t" none (some 2) "restricted" none none none 0 =
      createCard twoCards 9 1 "t" none none "restricted" none none none 0 := by
  refine ⟨by decide, movePosition_not_validated.1 twoCards 2 1 99 (by decide),
    by decide, movePosition_not_validated.2.1 twoColumns 1 (-5) (by decide), ?_⟩
  have h := movePosition_not_validated.2.2 twoCards 9 1 "t" none "restricted"
    none none none 0 (denseAll_twoCards 1)
  exact h

/-- C5 witness: the specification applied to a concrete card and a
concrete column move. -/
theorem moveWithin_spec_witness :
    findCardById twoCards 2 = some (mkCard 2 1 1) ∧
    twoColumns.find? (fun c => c.id == 2) =
      some { id := 2, boardId := 1, name := "Done", position := 1 } ∧
    (moveCard twoCards 2 1 0).isSome ∧ (moveColumn twoColumns 2 0).isSome := by
  have h := moveWithinContainer_spec twoCards (mkCard 2 1 1) 0 twoColumns
    { id := 2, boardId := 1, name := "Done", position := 1 } 0 rfl (by decide) rfl (by decide)
  refine ⟨rfl, rfl, ?_, ?_⟩
  · show (moveCard twoCards (mkCard 2 1 1).id (mkCard 2 1 1).columnId 0).isSome = true
    rw [h.1]
    rfl
  · show (moveColumn twoColumns
      (({ id := 2, boardId := 1, name := "Done", position := 1 } : Column)).id 0).isSome = true
    rw [h.2.2.1]
    rfl

/-- C6 witness: the round trip applied to a concrete four-card table. -/
theorem moveCard_round_trip_witness :
    findCardById fourCards 2 = some (mkCard 2 1 1) ∧
    (moveCard fourCards 2 2 0).isSome := by
  obtain ⟨s1, h1, h2⟩ := moveCard_round_trip fourCards (mkCard 2 1 1) 2 0 rfl
    (by decide) (by decide) (by decide)
  refine ⟨rfl, ?_⟩
  show (moveCard fourCards (mkCard 2 1 1).id 2 0).isSome = true
  rw [h1]
  rfl

/-- C3 counterexample: `handlers::cards::get_card` denies a private card
to its own creator when no board role exists, and
`handlers::inbox::get_card` denies a public card to a stranger — so
neither check implements the unified rule of the claim. -/
theorem card_view_checks_counterexample :
    cardsGetCardAllowed { mkCard 1 1 0 with visibility := "private", createdBy := 7 } none =
      false ∧
    ({ mkCard 1 1 0 with visibility := "private", createdBy := 7 } : Card).createdBy = 7 ∧
    inboxCanAccessCard { mkCard 1 1 0 with visibility := "public", createdBy := 3 } 9 [] =
      false ∧
    visFromString "public" = some CardVisibility.public :=
  ⟨rfl, rfl, rfl, rfl⟩

/-- C3 (amended): the two view checks are inconsistent with the claim
and with each other.  The cards handler ignores the viewer entirely:
unparsable visibility falls back to Private, Public always passes,
Restricted needs any role, Private needs an edit-capable role.  The
inbox handler ignores visibility entirely: owner or creator passes,
otherwise any recognized role on an attached board suffices. -/
theorem card_view_checks_characterized :
    (∀ (card : Card) (role : Option BoardRole), visFromString card.visibility = none →
      cardsGetCardAllowed card role =
        cardsGetCardAllowed { card with visibility := "private" } role) ∧
    (∀ (card : Card) (role : Option BoardRole),
      visFromString card.visibility = some CardVisibility.public →
      cardsGetCardAllowed card role = true) ∧
    (∀ (card : Card) (role : Option BoardRole),
      visFromString card.visibility = some CardVisibility.restricted →
      cardsGetCardAllowed card role = role.isSome) ∧
    (∀ (card : Card) (role : Option BoardRole),
      visFromString card.visibility = some CardVisibility.private_ →
      cardsGetCardAllowed card role = (role.map BoardRole.canEdit).getD false) ∧
    (∀ (card : Card) (viewerId : Nat) (roles : List (Option BoardRole)),
      card.ownerId = some viewerId ∨ card.createdBy = viewerId →
      inboxCanAccessCard card viewerId roles = true) ∧
    (∀ (card : Card) (viewerId : Nat) (roles : List (Option BoardRole)),
      inboxCanAccessCard card viewerId roles = true ↔
        card.ownerId = some viewerId ∨ card.createdBy = viewerId ∨
          ∃ r ∈ roles, r.isSome) := by
  refine ⟨?_, ?_, ?_, ?_, ?_, ?_⟩
  · intro card role h
    unfold cardsGetCardAllowed
    rw [h]
    rfl
  · intro card role h
    unfold cardsGetCardAllowed
    rw [h]
    rfl
  · intro card role h
    unfold cardsGetCardAllowed
    rw [h]
    rfl
  · intro card role h
    unfold cardsGetCardAllowed
    rw [h]
    rfl
  · intro card viewerId roles h
    unfold inboxCanAccessCard
    rcases h with h | h <;> simp [h]
  · intro card viewerId roles
    unfold inboxCanAccessCard
    simp [List.any_eq_true, or_assoc]

/-- C3 witness: the amended characterization applied to concrete cards,
roles and viewers. -/
theorem card_view_checks_witness :
    visFromString (mkCard 1 1 0).visibility = some CardVisibility.restricted ∧
    cardsGetCardAllowed (mkCard 1 1 0) (some BoardRole.reader) = true ∧
    inboxCanAccessCard { mkCard 1 1 0 with createdBy := 7 } 7 [] = true := by
  refine ⟨rfl, ?_, ?_⟩
  · rw [card_view_checks_characterized.2.2.1 (mkCard 1 1 0) (some BoardRole.reader) rfl]
    rfl
  · exact card_view_checks_characterized.2.2.2.2.1
      { mkCard 1 1 0 with createdBy := 7 } 7 [] (Or.inr rfl)

/-- C4 counterexample: the `add_permission` upsert targeted at the owner
(with a non-owner new role) silently downgrades the Owner row — the
handler only rejects `role == Owner` in the input, not owners as
targets. -/
theorem addPermission_downgrades_owner :
    handlerAddPermission [{ userId := 0, role := "owner" }] 0 0 BoardRole.editor =
      some [{ userId := 0, role := "editor" }] ∧
    ([{ userId := 0, role := "editor" }] : List PermRow).countP
      (fun p => p.role == "owner") = 0 :=
  ⟨rfl, rfl⟩

/-- C4 (amended): `remove_permission` can never delete an Owner row and
the handler rejects adding a second Owner, but the upsert of
`add_permission` CAN replace an existing Owner row with a lower role
when the owner is the target, so the original invariant fails (Owner
rows survive `add_permission` only when the owner is not the target). -/
theorem owner_permission_protection :
    (∀ (perms : List PermRow) (u : Nat) (res : List PermRow),
      removePermissionRepo perms u = some res →
      ∀ p ∈ perms, p.role = "owner" → p ∈ res) ∧
    (∀ (perms : List PermRow) (a t : Nat),
      handlerAddPermission perms a t BoardRole.owner = none) ∧
    (∀ (perms : List PermRow) (a t : Nat) (role : BoardRole) (res : List PermRow),
      handlerAddPermission perms a t role = some res →
      ∀ p ∈ perms, p.role = "owner" → p.userId ≠ t → p ∈ res) ∧
    (∀ (perms : List PermRow) (a t : Nat) (res : List PermRow),
      handlerRemovePermission perms a t = some res →
      ∀ p ∈ perms, p.role = "owner" → p ∈ res) := by
  have hremove : ∀ (perms : List PermRow) (u : Nat) (res : List PermRow),
      removePermissionRepo perms u = some res →
      ∀ p ∈ perms, p.role = "owner" → p ∈ res := by
    intro perms u res h p hp hrole
    unfold removePermissionRepo at h
    simp only [] at h
    split_ifs at h with hlen
    have : res = perms.filter (fun p => !(p.userId == u && !(p.role == "owner"))) := by
      injection h with h
      exact h.symm
    rw [this, List.mem_filter]
    refine ⟨hp, ?_⟩
    simp [hrole]
  refine ⟨hremove, ?_, ?_, ?_⟩
  · intro perms a t
    unfold handlerAddPermission
    cases hr : getUserRole perms a with
    | none => rfl
    | some r =>
      dsimp only []
      split_ifs <;> simp_all
  · intro perms a t role res h p hp hrole hne
    unfold handlerAddPermission at h
    cases hr : getUserRole perms a with
    | none => rw [hr] at h; exact absurd h (by simp)
    | some r =>
      rw [hr] at h
      simp only [] at h
      by_cases h1 : (!r.canManagePermissions) = true
      · rw [if_pos h1] at h; exact absurd h (by simp)
      · rw [if_neg h1] at h
        by_cases h2 : role = BoardRole.owner
        · rw [if_pos h2] at h; exact absurd h (by simp)
        · rw [if_neg h2] at h
          have hres : res = addPermissionRepo perms t role := by
            injection h with h
            exact h.symm
          rw [hres]
          unfold addPermissionRepo
          split_ifs with hany
          · apply List.mem_map.mpr
            refine ⟨p, hp, ?_⟩
            rw [if_neg (by simp [hne])]
          · exact List.mem_append_left _ hp
  · intro perms a t res h p hp hrole
    unfold handlerRemovePermission at h
    cases hr : getUserRole perms a with
    | none => rw [hr] at h; exact absurd h (by simp)
    | some r =>
      rw [hr] at h
      simp only [] at h
      by_cases h1 : (!r.canManagePermissions) = true
      · rw [if_pos h1] at h
        exact absurd h (by simp)
      · rw [if_neg h1] at h
        exact hremove perms t res h p hp hrole

/-- C4 witness: the amended theorem applied to a concrete permission
table. -/
theorem owner_permission_protection_witness :
    handlerRemovePermission
        [{ userId := 0, role := "owner" }, { userId := 1, role := "reader" }] 0 1 =
      some [{ userId := 0, role := "owner" }] ∧
    ({ userId := 0, role := "owner" } : PermRow) ∈
      [({ userId := 0, role := "owner" } : PermRow)] := by
  refine ⟨rfl, ?_⟩
  exact owner_permission_protection.2.2.2
    [{ userId := 0, role := "owner" }, { userId := 1, role := "reader" }] 0 1
    [{ userId := 0, role := "owner" }] rfl { userId := 0, role := "owner" }
    (by decide) rfl

/-- C7 (code bug): the claim says the parser always returns a list, but
the input consisting of exactly the fence opener panics: `find` locates
the fence at 0, `rfind` then returns the same 0, and the slice
`&response[7..0]` aborts the process (modelled by `none`).  On inputs
with no parseable JSON object, such as `not json at all`, the empty
list is indeed returned. -/
theorem parse_llm_response_panic_bug :
    parseLlmResponse "```json" = none ∧
    parseLlmResponse "not json at all" = some [] :=
  ⟨rfl, rfl⟩

/-- C8 (confirmed): a direct single-object parse yields exactly that one
descriptor; the spec example string parses to one `create_card`
descriptor; and `create_card`, `CreateCard` and `createcard` all
normalize to the same `CreateCard` action. -/
theorem single_action_parse_normalization :
    (∀ (s : String) (a : LlmAction),
        llmFromStr (String.mk (trimChars s.data)) = some a →
        parseLlmResponse s = some [a]) ∧
    parseLlmResponse specActionText = some [specExpectedAct] ∧
    chatActionFromStr "create_card" = ChatAction.createCard ∧
    chatActionFromStr "CreateCard" = ChatAction.createCard ∧
    chatActionFromStr "createcard" = ChatAction.createCard := by
  refine ⟨?_, rfl, rfl, rfl, rfl⟩
  intro s a h
  unfold parseLlmResponse
  simp only [h]

/-- C8 witness: the direct-parse clause applied to the spec example
string. -/
theorem single_action_parse_normalization_witness :
    llmFromStr (String.mk (trimChars specActionText.data)) = some specExpectedAct ∧
    parseLlmResponse specActionText = some [specExpectedAct] :=
  ⟨rfl, single_action_parse_normalization.1 specActionText specExpectedAct rfl⟩

/-- C2 counterexample: in board chat a reader-issued `create_card` is
silently dropped — the outcome list stays empty (no `success = false`
entry) and the state is untouched, for any executor. -/
theorem reader_chat_no_failure_outcome :
    BoardRole.reader.canEdit = false ∧
    readonlyNames.contains actC2.action = false ∧
    sendMessageActions exC2 BoardRole.reader 0 [actC2] = some (0, []) :=
  ⟨rfl, by decide, rfl⟩

/-- C2 (amended): when the actor's role fails `can_edit`, no mutation is
applied, but the report differs by surface: the board-chat loop skips
the action silently (empty outcome list, state unchanged), while
`execute_global_action` returns a `success = false` outcome whose
description cites the missing permission. -/
theorem chat_permission_denied_outcomes :
    (∀ (σ : Type) (ex : σ → LlmAction → Option (σ × ActionTaken)) (role : BoardRole)
        (st : σ) (actions : List LlmAction), role.canEdit = false →
        sendMessageActions ex role st actions = some (st, [])) ∧
    (∀ (σ : Type) (exc excb : σ → LlmAction → Option (σ × ActionTaken))
        (exb : σ → Nat → LlmAction → Option (σ × ActionTaken))
        (boards : List (Board × String)) (st : σ) (a : LlmAction)
        (board : Board) (roleStr : String),
        chatActionFromStr a.action ≠ ChatAction.moveCardCrossBoard →
        chatActionFromStr a.action ≠ ChatAction.createBoard →
        (chatActionFromStr a.action).isReadOnly = false →
        paramStr2 a.params "board" "board_name" ≠ "" →
        findBoardByName boards (paramStr2 a.params "board" "board_name") =
          some (board, roleStr) →
        roleCanEdit roleStr = false →
        executeGlobalAction exc excb exb boards st a =
          some (st, { action := (chatActionFromStr a.action).toStr,
                      description := "You don\x27t have permission to edit board \x27"
                        ++ board.name ++ "\x27",
                      success := false })) := by
  constructor
  · intro σ ex role st actions hrole
    induction actions generalizing st with
    | nil => rfl
    | cons a rest ih =>
      simp only [sendMessageActions]
      split_ifs with h1 h2
      · exact ih st
      · rw [hrole] at h2; exact absurd h2 (by simp)
      · exact ih st
  · intro σ exc excb exb boards st a board roleStr h1 h2 h3 h4 hfind h5
    simp only [executeGlobalAction, if_neg h1, if_neg h2, h3, if_neg h4, hfind, h5]
    simp

/-- C2 witness: the amended theorem applied to a concrete reader in
board chat and to a concrete global action on a reader-role board. -/
theorem chat_permission_denied_witness :
    BoardRole.reader.canEdit = false ∧
    roleCanEdit "reader" = false ∧
    sendMessageActions exC2 BoardRole.reader 7 [actC2] = some (7, []) ∧
    executeGlobalAction exC2 exC2 exbC2 boardsC2 3 actGlobalC2 =
      some (3, { action := "create_card",
                 description := "You don\x27t have permission to edit board \x27Work\x27",
                 success := false }) :=
  ⟨rfl, rfl,
   chat_permission_denied_outcomes.1 Nat exC2 BoardRole.reader 7 [actC2] rfl,
   chat_permission_denied_outcomes.2 Nat exC2 exC2 exbC2 boardsC2 3 actGlobalC2
     { id := 5, name := "Work" } "reader" (by decide) (by decide) rfl
     (by decide) rfl rfl⟩

theorem mem_insertCardByPos {c d : Card} {l : List Card}
    (h : c ∈ insertCardByPos d l) : c = d ∨ c ∈ l := by
  induction l with
  | nil => simpa [insertCardByPos] using h
  | cons e es ih =>
    unfold insertCardByPos at h
    split_ifs at h
    · rcases List.mem_cons.mp h with h1 | h1
      · exact Or.inl h1
      · exact Or.inr h1
    · rcases List.mem_cons.mp h with h1 | h1
      · exact Or.inr (List.mem_cons.mpr (Or.inl h1))
      · rcases ih h1 with h2 | h2
        · exact Or.inl h2
        · exact Or.inr (List.mem_cons.mpr (Or.inr h2))

theorem mem_foldr_insertCardByPos {c : Card} {l : List Card}
    (h : c ∈ l.foldr insertCardByPos []) : c ∈ l := by
  induction l with
  | nil => simpa using h
  | cons e es ih =>
    rcases mem_insertCardByPos h with h1 | h1
    · exact List.mem_cons.mpr (Or.inl h1)
    · exact List.mem_cons.mpr (Or.inr (ih h1))

theorem mem_listCardsByColumn {cards : List Card} {colId : Nat} {c : Card}
    (h : c ∈ listCardsByColumn cards colId) : c ∈ cards := by
  unfold listCardsByColumn at h
  exact List.mem_of_mem_filter (mem_foldr_insertCardByPos h)

theorem findCardInColumns_mem {cards : List Card} {colsL : List Column} {t : String}
    {src : Card} (h : findCardInColumns cards colsL t = some src) : src ∈ cards := by
  induction colsL with
  | nil => simp [findCardInColumns] at h
  | cons col rest ih =>
    unfold findCardInColumns at h
    cases hf : (listCardsByColumn cards col.id).find? (fun c => lc c.title == lc t) with
    | none =>
      rw [hf] at h
      simp only [] at h
      exact ih h
    | some c =>
      rw [hf] at h
      simp only [] at h
      injection h with h
      subst h
      exact mem_listCardsByColumn (List.mem_of_find?_eq_some hf)

/-- C10 (confirmed): every successful `move_card_cross_board` creates a
brand-new card — id `genId` (the fresh UUID), `created_by` the acting
user, appended at `MAX(position)+1` of the target column — and deletes
the source card, whose id no longer resolves afterwards. -/
theorem cross_board_move_new_identity
    (cards : List Card) (cols : List Column) (boards : List (Board × String))
    (userId genId : Nat) (action : LlmAction) (res : List Card × ActionTaken)
    (h : execCrossBoardMove cards cols boards userId genId action = some res)
    (hok : res.2.success = true) :
    ∃ src : Card, ∃ targetColId : Nat,
      src ∈ cards ∧
      (crossMovedCard cards genId targetColId src userId).id = genId ∧
      (crossMovedCard cards genId targetColId src userId).createdBy = userId ∧
      (crossMovedCard cards genId targetColId src userId).position =
        (maxPosCards cards targetColId).getD (-1) + 1 ∧
      res.1 = (cards ++ [crossMovedCard cards genId targetColId src userId]).filter
          (fun c => !(c.id == src.id)) ∧
      findCardById res.1 src.id = none := by
  simp only [execCrossBoardMove] at h
  split_ifs at h with hmiss
  · injection h with h
    rw [← h] at hok
    simp at hok
  · split at h
    · injection h with h
      rw [← h] at hok
      simp at hok
    · rename_i sourcePair heqFrom
      split at h
      · injection h with h
        rw [← h] at hok
        simp at hok
      · rename_i targetPair heqTo
        split_ifs at h with hsrcRole htgtRole
        · injection h with h
          rw [← h] at hok
          simp at hok
        · injection h with h
          rw [← h] at hok
          simp at hok
        · split at h
          · injection h with h
            rw [← h] at hok
            simp at hok
          · rename_i sourceCard heqCard
            split at h
            · injection h with h
              rw [← h] at hok
              simp at hok
            · rename_i targetCol heqCol
              split at h
              · exact absurd h (by simp)
              · rename_i cards2 heqDel
                injection h with h
                refine ⟨sourceCard, targetCol.id, findCardInColumns_mem heqCard,
                  rfl, rfl, rfl, ?_, ?_⟩
                · unfold deleteCard at heqDel
                  simp only [] at heqDel
                  split_ifs at heqDel
                  injection heqDel with heqDel
                  rw [← h, ← heqDel]
                · rw [← h]
                  unfold deleteCard at heqDel
                  simp only [] at heqDel
                  split_ifs at heqDel
                  injection heqDel with heqDel
                  rw [← heqDel]
                  unfold findCardById
                  apply List.find?_eq_none.mpr
                  intro x hx
                  have h2 := (List.mem_filter.mp hx).2
                  simp only [Bool.not_eq_true, beq_eq_false_iff_ne, ne_eq] at h2
                  simpa using h2

/-- C10 witness: the theorem applied to a concrete one-card move from
board A to board B. -/
theorem cross_board_move_witness :
    execCrossBoardMove w10cards w10cols w10boards 7 999 w10action = some w10res ∧
    w10res.2.success = true ∧
    (∃ src : Card, ∃ targetColId : Nat,
      src ∈ w10cards ∧
      (crossMovedCard w10cards 999 targetColId src 7).id = 999 ∧
      (crossMovedCard w10cards 999 targetColId src 7).createdBy = 7 ∧
      (crossMovedCard w10cards 999 targetColId src 7).position =
        (maxPosCards w10cards targetColId).getD (-1) + 1 ∧
      w10res.1 = (w10cards ++ [crossMovedCard w10cards 999 targetColId src 7]).filter
          (fun c => !(c.id == src.id)) ∧
      findCardById w10res.1 src.id = none) :=
  ⟨rfl, rfl,
   cross_board_move_new_identity w10cards w10cols w10boards 7 999 w10action w10res
     rfl rfl⟩

end Kanban
